import Mathlib

/-!
Shallow embedding of the msgpack-visualizer core (byte recovery layer,
format auto-detector, binary tree decoder, tree projector) and proofs of
the specification claims.

Sources embedded:
- `src/utils/decoderUtils.ts` (parseHex, parseBase64, parsePythonBytes,
  autoDetectAndDecode, serializeNode, bytesToBase64)
- `src/unnamed/part_002` (MsgpackParser, generateId, parseMsgpack)
- `src/types.ts` (InputFormat, DataType, ParsedNode, ParseResult)

Modelling conventions:
- Bytes are `Nat` (values 0..255); byte buffers are `List Nat`.
- JS strings are modelled as `String` / `List Char`; `charCodeAt` is
  `Char.toNat` (exact for all BMP characters; astral-plane inputs, which
  JS would see as two UTF-16 surrogate code units, are not modelled).
- JS exceptions are modelled with `Except`: an error means no partial
  result is returned, exactly as a thrown exception aborts `parse`.
- JS numbers that hold integers are `Int`; `bigint` values get their own
  constructor so that `typeof value === 'bigint'` is expressible.
- IEEE floats are carried as their raw big-endian bit patterns: no claim
  depends on float arithmetic, only on which bytes were consumed.
-/

namespace MV

/-- `src/types.ts` InputFormat enum. -/
inductive InputFormat where
  | AUTO | HEX | BASE64 | PYTHON
deriving DecidableEq, Repr

/-- `src/types.ts` DataType enum. -/
inductive DataType where
  | NULL | BOOLEAN | INTEGER | FLOAT | STRING | BINARY | ARRAY | MAP | EXTENSION | UNKNOWN
deriving DecidableEq, Repr

/-- Kind-dependent payload of a node's `value` field (JS `any`).
`num` is a JS number holding an integer; `bigint` is a JS BigInt
(produced by the 64-bit integer cases via getBigUint64/getBigInt64);
`float32`/`float64` carry the raw big-endian bit pattern read from the
wire (the JS number they denote is not interpreted by any claim);
`bin` is a Uint8Array. -/
inductive Value where
  | null
  | bool (b : Bool)
  | num (i : Int)
  | bigint (i : Int)
  | float32 (bits : Nat)
  | float64 (bits : Nat)
  | str (s : String)
  | bin (bs : List Nat)
deriving DecidableEq, Repr

/-- `src/types.ts` ParsedNode. Fields in order: id (the numeric part of
the generated "node-N" string), key (the `key?` field: `Sum.inl` an
unwrapped primitive value, `Sum.inr` a full node for complex keys),
type, value, rawType (empty-string-free: every successful decode path
assigns it), children (present only when the code assigns `node.children`),
byteLength, meta (the extension type tag stored as `meta: { type }`). -/
inductive ParsedNode where
  | mk (id : Nat) (key : Option (Value ⊕ ParsedNode)) (type : DataType)
       (value : Value) (rawType : String) (children : Option (List ParsedNode))
       (byteLength : Option Nat) (meta : Option Int) : ParsedNode

/-- The type of the decoder's `key` payload: an unwrapped primitive value
or a full node (complex key). -/
abbrev KeyV := Value ⊕ ParsedNode

def ParsedNode.id : ParsedNode → Nat
  | .mk i _ _ _ _ _ _ _ => i

def ParsedNode.key : ParsedNode → Option KeyV
  | .mk _ k _ _ _ _ _ _ => k

def ParsedNode.type : ParsedNode → DataType
  | .mk _ _ t _ _ _ _ _ => t

def ParsedNode.value : ParsedNode → Value
  | .mk _ _ _ v _ _ _ _ => v

def ParsedNode.rawType : ParsedNode → String
  | .mk _ _ _ _ r _ _ _ => r

def ParsedNode.children : ParsedNode → Option (List ParsedNode)
  | .mk _ _ _ _ _ c _ _ => c

def ParsedNode.byteLength : ParsedNode → Option Nat
  | .mk _ _ _ _ _ _ b _ => b

def ParsedNode.meta : ParsedNode → Option Int
  | .mk _ _ _ _ _ _ _ m => m

/-- Errors thrown by the decoder (`src/unnamed/part_002`). `unexpectedEnd`
carries the element name printed in parentheses, or `none` for the bare
"Unexpected end of input" thrown at the top of `parse`; `unknownByte`
carries the byte and the offset interpolated into the message;
`rangeError` models the RangeError a JS DataView throws on an
out-of-bounds `getUint8`/`getUint16`/... read (its message text is
engine-specific; the code itself attaches no element name or offset);
`outOfFuel` is an artifact of the fuel-based embedding, unreachable
whenever the fuel exceeds the buffer length. -/
inductive Err where
  | unexpectedEnd (element : Option String)
  | unknownByte (b : Nat) (off : Nat)
  | rangeError
  | outOfFuel
deriving DecidableEq, Repr

/-- Lower-case hex digits of a `Nat`, as produced by JS `n.toString(16)`
for n ≥ 0 (used only in the unknown-byte message). -/
def natToHex (n : Nat) : String :=
  ⟨Nat.toDigits 16 n⟩

/-- The `e.message` string of each modelled error, as `parseMsgpack`'s
catch block reports it. The `rangeError` text is V8's; the code never
inspects it, and no theorem depends on it. -/
def Err.message : Err → String
  | .unexpectedEnd none => "Unexpected end of input"
  | .unexpectedEnd (some el) => "Unexpected end of input (" ++ el ++ ")"
  | .unknownByte b off => "Unknown byte 0x" ++ natToHex b ++ " at offset " ++ toString off
  | .rangeError => "Offset is outside the bounds of the DataView"
  | .outOfFuel => "out of fuel"

/-- `src/types.ts` ParseResult, with `success` split into the two shapes
`parseMsgpack` actually returns. -/
inductive ParseResult where
  | success (data : ParsedNode) (detectedFormat : InputFormat) (originalBytes : List Nat)
  | failure (error : String)

/-! ## Character helpers shared by the byte recovery layer -/

/-- Apostrophe character, written via its code. -/
def squote : Char := Char.ofNat 39

/-- Double-quote character. -/
def dquote : Char := Char.ofNat 34

/-- Backslash character. -/
def bslash : Char := Char.ofNat 92

/-- JS whitespace as recognised by `String.prototype.trim` and the regex
class `\s`: ASCII whitespace, NBSP, BOM, the Unicode space separators and
the line separators. -/
def isJsWs (c : Char) : Bool :=
  c = ' ' || c = '\t' || c = '\n' || c = '\r' || c = Char.ofNat 0x0B ||
  c = Char.ofNat 0x0C || c = Char.ofNat 0xA0 || c = Char.ofNat 0x1680 ||
  (0x2000 ≤ c.toNat && c.toNat ≤ 0x200A) || c = Char.ofNat 0x2028 ||
  c = Char.ofNat 0x2029 || c = Char.ofNat 0x202F || c = Char.ofNat 0x205F ||
  c = Char.ofNat 0x3000 || c = Char.ofNat 0xFEFF

/-- JS `input.trim()`. -/
def jsTrim (l : List Char) : List Char :=
  ((l.dropWhile isJsWs).reverse.dropWhile isJsWs).reverse

/-- The regex `/^[0-9a-fA-F]$/` on a single character. -/
def isHexDigitChar (c : Char) : Bool :=
  ('0' ≤ c && c ≤ '9') || ('a' ≤ c && c ≤ 'f') || ('A' ≤ c && c ≤ 'F')

/-- Numeric value of a hex digit (callers establish `isHexDigitChar`). -/
def hexVal (c : Char) : Nat :=
  if '0' ≤ c && c ≤ '9' then c.toNat - '0'.toNat
  else if 'a' ≤ c && c ≤ 'f' then c.toNat - 'a'.toNat + 10
  else if 'A' ≤ c && c ≤ 'F' then c.toNat - 'A'.toNat + 10
  else 0

/-- The test `hexRe = /^[0-9a-fA-F]+$/` (nonempty, all hex digits). -/
def hexReTest (l : List Char) : Bool :=
  !l.isEmpty && l.all isHexDigitChar

/-- A character of the base64 class `[A-Za-z0-9+/=]`. -/
def isB64Class (c : Char) : Bool :=
  ('A' ≤ c && c ≤ 'Z') || ('a' ≤ c && c ≤ 'z') || ('0' ≤ c && c ≤ '9') ||
  c = '+' || c = '/' || c = '='

/-- The test `base64Re = /^[A-Za-z0-9+/=]+$/`. -/
def base64ReTest (l : List Char) : Bool :=
  !l.isEmpty && l.all isB64Class

/-- `str.replace(/^0x/, '')`: drop one literal lowercase "0x" at the very
start. -/
def strip0x : List Char → List Char
  | '0' :: 'x' :: rest => rest
  | l => l

/-- `str.replace(/\s+/g, '')`: remove every whitespace character. -/
def stripWs (l : List Char) : List Char :=
  l.filter (fun c => !isJsWs c)

/-! ## decoderUtils.ts: parseHex -/

/-- Big-endian hex pairs of an even-length hex-digit list. -/
def hexPairs : List Char → List Nat
  | c1 :: c2 :: rest => (hexVal c1 * 16 + hexVal c2) :: hexPairs rest
  | _ => []

/-- `decoderUtils.ts` parseHex, on the character list of the input. -/
def parseHexL (l : List Char) : Except String (List Nat) :=
  let clean := stripWs (strip0x l)
  if clean.length % 2 ≠ 0 then .error "Invalid Hex string length"
  else if !hexReTest clean then .error "Invalid Hex characters"
  else .ok (hexPairs clean)

/-- `decoderUtils.ts` parseHex on a string. -/
def parseHex (s : String) : Except String (List Nat) :=
  parseHexL s.data

/-! ## decoderUtils.ts: parseBase64 (atob) -/

/-- Infra-standard "ASCII whitespace" removed by forgiving-base64
(`atob`): TAB, LF, FF, CR, SPACE.  Note this is a strict subset of
`isJsWs`. -/
def isAsciiWs (c : Char) : Bool :=
  c = '\t' || c = '\n' || c = Char.ofNat 0x0C || c = '\r' || c = ' '

/-- Value of a base64 alphabet character (without '='). -/
def b64CharVal (c : Char) : Option Nat :=
  if 'A' ≤ c && c ≤ 'Z' then some (c.toNat - 'A'.toNat)
  else if 'a' ≤ c && c ≤ 'z' then some (c.toNat - 'a'.toNat + 26)
  else if '0' ≤ c && c ≤ '9' then some (c.toNat - '0'.toNat + 52)
  else if c = '+' then some 62
  else if c = '/' then some 63
  else none

/-- Drop one trailing '=' if present. -/
def dropOneEq (l : List Char) : List Char :=
  if l.getLast? = some '=' then l.dropLast else l

/-- Assemble bytes from a list of 6-bit values whose length is ≡ 0, 2 or
3 (mod 4), as forgiving-base64 does. -/
def b64Bytes : List Nat → List Nat
  | a :: b :: c :: d :: rest =>
      (a * 4 + b / 16) :: ((b % 16) * 16 + c / 4) :: ((c % 4) * 64 + d) :: b64Bytes rest
  | [a, b] => [a * 4 + b / 16]
  | [a, b, c] => [a * 4 + b / 16, (b % 16) * 16 + c / 4]
  | _ => []

/-- WHATWG forgiving-base64 decode, i.e. the platform `atob`, composed
with the per-index `charCodeAt` loop of parseBase64 (each decoded "char"
of the binary string is its byte value). `none` models the exception
`atob` throws. -/
def atobBytes (l : List Char) : Option (List Nat) :=
  let d := l.filter (fun c => !isAsciiWs c)
  let d := if d.length % 4 = 0 then dropOneEq (dropOneEq d) else d
  if d.length % 4 = 1 then none
  else if d.all (fun c => (b64CharVal c).isSome) then
    some (b64Bytes (d.map (fun c => (b64CharVal c).getD 0)))
  else none

/-- `decoderUtils.ts` parseBase64. -/
def parseBase64L (l : List Char) : Except String (List Nat) :=
  match atobBytes l with
  | some bs => .ok bs
  | none => .error "Invalid Base64 string"

/-- `decoderUtils.ts` parseBase64 on a string. -/
def parseBase64 (s : String) : Except String (List Nat) :=
  parseBase64L s.data

/-! ## decoderUtils.ts: parsePythonBytes -/

/-- The byte emitted for a standard escape `\c` (the `switch (next)` of
parsePythonBytes): known escapes map to their control codes, any other
character keeps its own character code with the backslash dropped. -/
def escByte (c : Char) : Nat :=
  if c = 'n' then 10
  else if c = 'r' then 13
  else if c = 't' then 9
  else if c = bslash then 92
  else if c = dquote then 34
  else if c = squote then 39
  else if c = '0' then 0
  else c.toNat

/-- The left-to-right escape scan of parsePythonBytes (the `while` loop),
producing the raw pushed codes (before the `Uint8Array` mod-256
truncation). -/
def scanEscapes (l : List Char) : List Nat :=
  match l with
  | [] => []
  | c :: rest =>
    if c = bslash then
      match rest with
      | [] => [92]
      | next :: rest2 =>
        if next = 'x' then
          match rest2 with
          | c1 :: c2 :: rest3 =>
            if isHexDigitChar c1 && isHexDigitChar c2 then
              (hexVal c1 * 16 + hexVal c2) :: scanEscapes rest3
            else 92 :: 120 :: scanEscapes (c1 :: c2 :: rest3)
          | [c1] => 92 :: 120 :: scanEscapes [c1]
          | [] => 92 :: 120 :: scanEscapes []
        else escByte next :: scanEscapes rest2
    else c.toNat :: scanEscapes rest
termination_by l.length
decreasing_by all_goals (simp only [List.length_cons]; omega)

/-- The quote-stripping preamble of parsePythonBytes: strip a wrapping
`b'...'` / `b"..."`, tolerating a missing closing quote. -/
def stripBWrap (content : List Char) : List Char :=
  if (content.take 2 = ['b', squote] && content.getLast? = some squote) ||
     (content.take 2 = ['b', dquote] && content.getLast? = some dquote) then
    (content.drop 2).dropLast
  else if content.take 2 = ['b', squote] || content.take 2 = ['b', dquote] then
    content.drop 2
  else content

/-- `decoderUtils.ts` parsePythonBytes on a character list: trim, strip
quotes, scan escapes; `new Uint8Array(bytes)` truncates each pushed code
mod 256. Never fails. -/
def parsePythonBytesL (l : List Char) : List Nat :=
  (scanEscapes (stripBWrap (jsTrim l))).map (· % 256)

/-- `decoderUtils.ts` parsePythonBytes on a string. -/
def parsePythonBytes (s : String) : List Nat :=
  parsePythonBytesL s.data

/-! ## decoderUtils.ts: autoDetectAndDecode

The code accumulates per-candidate error strings in a local `errors`
array; the final failure throws a fixed message that does not use the
array.  `autoDetectCore` is the faithful body: its error value is the
accumulated `errors` array as it stands at the final `throw`, and
`autoDetectAndDecode` then discards it exactly as the thrown
`Error("Could not auto-detect format. ...")` does. -/

/-- The fixed message of the error thrown when auto-detection fails. -/
def autoDetectFailMsg : String :=
  "Could not auto-detect format. Please select one manually."

/-- `clean.startsWith("b'") || clean.startsWith('b"')`. -/
def startsWithBQuote (clean : List Char) : Bool :=
  clean.take 2 = ['b', squote] || clean.take 2 = ['b', dquote]

/-- `clean.includes('\x')`: some adjacent backslash-x pair. -/
def hasBackslashX : List Char → Bool
  | [] => false
  | c :: rest => (c = bslash && rest.head? = some 'x') || hasBackslashX rest

/-- Step 4 of autoDetectAndDecode: fallback escaped-byte-string parse when
the text contains `\x`.  parsePythonBytes is total, so its catch clause
can never fire. -/
def autoDetectStep4 (clean : List Char) (errs : List String) :
    Except (List String) (List Nat × InputFormat) :=
  if hasBackslashX clean then .ok (parsePythonBytesL clean, .PYTHON)
  else .error errs

/-- The hex-candidate guard of step 2: the 0x/whitespace-stripped text is
nonempty, of even length, and all hex digits. -/
def hexGuard (clean : List Char) : Bool :=
  let hexClean := stripWs (strip0x clean)
  decide (hexClean.length > 0) && hexClean.length % 2 == 0 && hexReTest hexClean

/-- The base64-candidate guard of step 3: length a multiple of 4, the
base64 character class, and no space (the last check is redundant with
the character class but appears in the code). -/
def b64Guard (clean : List Char) : Bool :=
  clean.length % 4 == 0 && base64ReTest clean && !clean.contains ' '

/-- Step 3 of autoDetectAndDecode: base64 candidate. -/
def autoDetectStep3 (clean : List Char) (errs : List String) :
    Except (List String) (List Nat × InputFormat) :=
  if b64Guard clean then
    match parseBase64L clean with
    | .ok bs => .ok (bs, .BASE64)
    | .error e => autoDetectStep4 clean (errs ++ ["Base64: Error: " ++ e])
  else autoDetectStep4 clean errs

/-- Step 2 of autoDetectAndDecode: hex candidate. -/
def autoDetectStep2 (clean : List Char) (errs : List String) :
    Except (List String) (List Nat × InputFormat) :=
  if hexGuard clean then
    match parseHexL clean with
    | .ok bs => .ok (bs, .HEX)
    | .error e => autoDetectStep3 clean (errs ++ ["Hex: Error: " ++ e])
  else autoDetectStep3 clean errs

/-- The body of autoDetectAndDecode on the trimmed input, with the
accumulated per-candidate error messages as the failure value (the array
`errors` at the moment of the final `throw`).  Step 1 (escaped
byte-string literal when the text begins with a `b` quote) cannot throw,
so it never contributes an error entry. -/
def autoDetectCore (clean : List Char) : Except (List String) (List Nat × InputFormat) :=
  if startsWithBQuote clean then .ok (parsePythonBytesL clean, .PYTHON)
  else autoDetectStep2 clean []

/-- `decoderUtils.ts` autoDetectAndDecode: the thrown error carries only
the fixed message, not the accumulated candidate errors. -/
def autoDetectAndDecode (input : String) : Except String (List Nat × InputFormat) :=
  match autoDetectCore (jsTrim input.data) with
  | .ok r => .ok r
  | .error _ => .error autoDetectFailMsg

/-! ## TextDecoder: WHATWG UTF-8 decode with U+FFFD replacement

`MsgpackParser.readString` decodes payload slices with
`new TextDecoder().decode(...)`, i.e. non-fatal UTF-8 with replacement
characters and BOM stripping.  `utf8Go` is fuel-based purely so the
definition is structurally recursive; one unit of fuel consumes at least
one byte, so fuel = list length always suffices. -/

/-- U+FFFD. -/
def replChar : Char := Char.ofNat 0xFFFD

/-- WHATWG UTF-8 decoder loop. On an invalid or out-of-range byte it
emits U+FFFD; an invalid continuation byte is restored and reprocessed;
a sequence truncated by end of input emits a single U+FFFD. -/
def utf8Go : Nat → List Nat → List Char
  | 0, _ => []
  | _, [] => []
  | fuel+1, b :: rest =>
    if b ≤ 0x7F then Char.ofNat b :: utf8Go fuel rest
    else if 0xC2 ≤ b ∧ b ≤ 0xDF then
      match rest with
      | [] => [replChar]
      | c1 :: r1 =>
        if 0x80 ≤ c1 ∧ c1 ≤ 0xBF then
          Char.ofNat ((b - 0xC0) * 64 + (c1 - 0x80)) :: utf8Go fuel r1
        else replChar :: utf8Go fuel (c1 :: r1)
    else if 0xE0 ≤ b ∧ b ≤ 0xEF then
      match rest with
      | [] => [replChar]
      | c1 :: r1 =>
        if (if b = 0xE0 then 0xA0 else 0x80) ≤ c1 ∧ c1 ≤ (if b = 0xED then 0x9F else 0xBF) then
          match r1 with
          | [] => [replChar]
          | c2 :: r2 =>
            if 0x80 ≤ c2 ∧ c2 ≤ 0xBF then
              Char.ofNat ((b - 0xE0) * 4096 + (c1 - 0x80) * 64 + (c2 - 0x80)) :: utf8Go fuel r2
            else replChar :: utf8Go fuel (c2 :: r2)
        else replChar :: utf8Go fuel (c1 :: r1)
    else if 0xF0 ≤ b ∧ b ≤ 0xF4 then
      match rest with
      | [] => [replChar]
      | c1 :: r1 =>
        if (if b = 0xF0 then 0x90 else 0x80) ≤ c1 ∧ c1 ≤ (if b = 0xF4 then 0x8F else 0xBF) then
          match r1 with
          | [] => [replChar]
          | c2 :: r2 =>
            if 0x80 ≤ c2 ∧ c2 ≤ 0xBF then
              match r2 with
              | [] => [replChar]
              | c3 :: r3 =>
                if 0x80 ≤ c3 ∧ c3 ≤ 0xBF then
                  Char.ofNat ((b - 0xF0) * 262144 + (c1 - 0x80) * 4096 + (c2 - 0x80) * 64 + (c3 - 0x80))
                    :: utf8Go fuel r3
                else replChar :: utf8Go fuel (c3 :: r3)
            else replChar :: utf8Go fuel (c2 :: r2)
        else replChar :: utf8Go fuel (c1 :: r1)
    else replChar :: utf8Go fuel rest

/-- `new TextDecoder().decode(bytes)`: UTF-8 with replacement, stripping
a leading byte-order mark (the TextDecoder default). -/
def textDecode (bs : List Nat) : String :=
  match bs with
  | 0xEF :: 0xBB :: 0xBF :: rest => ⟨utf8Go rest.length rest⟩
  | _ => ⟨utf8Go bs.length bs⟩

/-! ## MsgpackParser (src/unnamed/part_002)

The parser's mutable state (`offset` cursor, the module-global
`nodeIdCounter` behind `generateId`) is threaded explicitly: every
operation takes and returns `(offset, nextId)`.  `parse` is recursive
descent; the embedding adds a fuel parameter to make the recursion
structural.  One unit of fuel is spent per `parse` call and each call
first consumes the tag byte, so fuel = buffer length + 1 always
suffices; `Err.outOfFuel` is unreachable at that fuel. -/

/-- Big-endian accumulation of a byte list. -/
def beNat (bs : List Nat) : Nat :=
  bs.foldl (fun a b => a * 256 + b) 0

/-- A bounds-checked big-endian unsigned read of `w` bytes at `off`, as
DataView `getUint8/getUint16/getUint32/getBigUint64(off, false)`: a read
past the view's end throws a RangeError. -/
def readUintBE (buf : List Nat) (off w : Nat) : Except Err Nat :=
  if off + w > buf.length then .error .rangeError
  else .ok (beNat ((buf.drop off).take w))

/-- Two's-complement reinterpretation of a `w`-byte unsigned value, as
DataView `getInt8/getInt16/getInt32/getBigInt64`. -/
def toSigned (w v : Nat) : Int :=
  if v < 2 ^ (8 * w - 1) then (v : Int) else (v : Int) - 2 ^ (8 * w)

/-- `MsgpackParser.readString`: bounds check against the buffer length,
then UTF-8 decode of the payload slice; advances the offset to `end`. -/
def readStringP (buf : List Nat) (off len : Nat) : Except Err (String × Nat) :=
  if off + len > buf.length then .error (.unexpectedEnd (some "String"))
  else .ok (textDecode ((buf.drop off).take len), off + len)

/-- `MsgpackParser.readBin`: bounds check, then the copied payload slice. -/
def readBinP (buf : List Nat) (off len : Nat) : Except Err (List Nat × Nat) :=
  if off + len > buf.length then .error (.unexpectedEnd (some "Binary"))
  else .ok ((buf.drop off).take len, off + len)

/-- `MsgpackParser.getKey`: unwrap the raw value of a primitive key node,
keep the full node for complex keys. -/
def getKey (k : ParsedNode) : KeyV :=
  if k.type = .STRING ∨ k.type = .INTEGER ∨ k.type = .BOOLEAN ∨
     k.type = .FLOAT ∨ k.type = .NULL then
    .inl k.value
  else .inr k

/-- `MsgpackParser.readExt`: read the signed 8-bit extension type tag,
then `length` payload bytes.  The returned node is built fresh (without
the `key` passed to `parse`) and consumes its own generated id. -/
def readExt (buf : List Nat) (off nid len : Nat) (label : String) :
    Except Err (ParsedNode × Nat × Nat) :=
  match readUintBE buf off 1 with
  | .error e => .error e
  | .ok t =>
    match readBinP buf (off + 1) len with
    | .error e => .error e
    | .ok (data, off') =>
      .ok (.mk nid none .EXTENSION (.bin data) label none (some len) (some (toSigned 1 t)), off', nid + 1)

/-- The element loop of the array cases: `count` iterations of
`children.push(this.parse(undefined))`, with `p` the recursive parse at
one fuel level down. -/
def parseItems (p : Nat → Nat → Option KeyV → Except Err (ParsedNode × Nat × Nat)) :
    Nat → Nat → Nat → Except Err (List ParsedNode × Nat × Nat)
  | 0, off, nid => .ok ([], off, nid)
  | n+1, off, nid =>
    match p off nid none with
    | .error e => .error e
    | .ok (c, off1, nid1) =>
      match parseItems p n off1 nid1 with
      | .error e => .error e
      | .ok (cs, off2, nid2) => .ok (c :: cs, off2, nid2)

/-- The entry loop of the map cases: per entry, parse the key node with
no key, resolve it through `getKey`, parse the value node with the
resolved key attached, and push only the value node. -/
def parseEntries (p : Nat → Nat → Option KeyV → Except Err (ParsedNode × Nat × Nat)) :
    Nat → Nat → Nat → Except Err (List ParsedNode × Nat × Nat)
  | 0, off, nid => .ok ([], off, nid)
  | n+1, off, nid =>
    match p off nid none with
    | .error e => .error e
    | .ok (k, off1, nid1) =>
      match p off1 nid1 (some (getKey k)) with
      | .error e => .error e
      | .ok (v, off2, nid2) =>
        match parseEntries p n off2 nid2 with
        | .error e => .error e
        | .ok (vs, off3, nid3) => .ok (v :: vs, off3, nid3)

/-- The tag classification of `MsgpackParser.parse`'s dispatch, in the
source's testing order: the fixint/fixmap/fixarray/fixstr ranges first,
then the switch labels; everything else (only 0xc1) is unknown. -/
inductive Tag where
  | posFixint | negFixint | fixmap | fixarray | fixstr
  | nilTag | falseTag | trueTag
  | bin8 | bin16 | bin32
  | f32 | f64
  | u8 | u16 | u32 | u64
  | i8 | i16 | i32 | i64
  | fixext1 | fixext2 | fixext4 | fixext8 | fixext16
  | ext8 | ext16 | ext32
  | str8 | str16 | str32
  | arr16 | arr32
  | map16 | map32
  | unknownTag
deriving DecidableEq, Repr

/-- Classify a tag byte exactly as the if/switch cascade of `parse` does. -/
def tagOf (byte : Nat) : Tag :=
  if byte ≤ 0x7f then .posFixint
  else if byte ≥ 0xe0 then .negFixint
  else if 0x80 ≤ byte ∧ byte ≤ 0x8f then .fixmap
  else if 0x90 ≤ byte ∧ byte ≤ 0x9f then .fixarray
  else if 0xa0 ≤ byte ∧ byte ≤ 0xbf then .fixstr
  else if byte = 0xc0 then .nilTag
  else if byte = 0xc2 then .falseTag
  else if byte = 0xc3 then .trueTag
  else if byte = 0xc4 then .bin8
  else if byte = 0xc5 then .bin16
  else if byte = 0xc6 then .bin32
  else if byte = 0xca then .f32
  else if byte = 0xcb then .f64
  else if byte = 0xcc then .u8
  else if byte = 0xcd then .u16
  else if byte = 0xce then .u32
  else if byte = 0xcf then .u64
  else if byte = 0xd0 then .i8
  else if byte = 0xd1 then .i16
  else if byte = 0xd2 then .i32
  else if byte = 0xd3 then .i64
  else if byte = 0xd4 then .fixext1
  else if byte = 0xd5 then .fixext2
  else if byte = 0xd6 then .fixext4
  else if byte = 0xd7 then .fixext8
  else if byte = 0xd8 then .fixext16
  else if byte = 0xc7 then .ext8
  else if byte = 0xc8 then .ext16
  else if byte = 0xc9 then .ext32
  else if byte = 0xd9 then .str8
  else if byte = 0xda then .str16
  else if byte = 0xdb then .str32
  else if byte = 0xdc then .arr16
  else if byte = 0xdd then .arr32
  else if byte = 0xde then .map16
  else if byte = 0xdf then .map32
  else .unknownTag

/-- The body of `MsgpackParser.parse` after the end-of-input guard and
the tag-byte read: `byte` is the tag byte (already consumed, so the
cursor stands at `off0 + 1`), `p` is the recursive parse used by the
container loops (the same parser one fuel level down). -/
def parseDispatch (p : Nat → Nat → Option KeyV → Except Err (ParsedNode × Nat × Nat))
    (buf : List Nat) (byte off0 nid0 : Nat) (key : Option KeyV) :
    Except Err (ParsedNode × Nat × Nat) :=
      let off := off0 + 1
      let id := nid0
      let nid := nid0 + 1
      match tagOf byte with
      | .posFixint =>
        .ok (.mk id key .INTEGER (.num byte) "fixint" none none none, off, nid)
      | .negFixint =>
        .ok (.mk id key .INTEGER (.num ((byte : Int) - 0x100)) "fixint" none none none, off, nid)
      | .fixmap =>
        let len := byte % 16
        match parseEntries p len off nid with
        | .error e => .error e
        | .ok (cs, off', nid') =>
          .ok (.mk id key .MAP .null ("map(" ++ toString len ++ ")") (some cs) (some len) none, off', nid')
      | .fixarray =>
        let len := byte % 16
        match parseItems p len off nid with
        | .error e => .error e
        | .ok (cs, off', nid') =>
          .ok (.mk id key .ARRAY .null ("arr(" ++ toString len ++ ")") (some cs) (some len) none, off', nid')
      | .fixstr =>
        let len := byte % 32
        match readStringP buf off len with
        | .error e => .error e
        | .ok (s, off') =>
          .ok (.mk id key .STRING (.str s) ("str(" ++ toString len ++ ")") none (some len) none, off', nid)
      | .nilTag =>
        .ok (.mk id key .NULL .null "nil" none none none, off, nid)
      | .falseTag =>
        .ok (.mk id key .BOOLEAN (.bool false) "false" none none none, off, nid)
      | .trueTag =>
        .ok (.mk id key .BOOLEAN (.bool true) "true" none none none, off, nid)
      | .bin8 =>
        match readUintBE buf off 1 with
        | .error e => .error e
        | .ok len =>
          match readBinP buf (off + 1) len with
          | .error e => .error e
          | .ok (data, off') =>
            .ok (.mk id key .BINARY (.bin data) ("bin8(" ++ toString len ++ ")") none (some len) none, off', nid)
      | .bin16 =>
        match readUintBE buf off 2 with
        | .error e => .error e
        | .ok len =>
          match readBinP buf (off + 2) len with
          | .error e => .error e
          | .ok (data, off') =>
            .ok (.mk id key .BINARY (.bin data) ("bin16(" ++ toString len ++ ")") none (some len) none, off', nid)
      | .bin32 =>
        match readUintBE buf off 4 with
        | .error e => .error e
        | .ok len =>
          match readBinP buf (off + 4) len with
          | .error e => .error e
          | .ok (data, off') =>
            .ok (.mk id key .BINARY (.bin data) ("bin32(" ++ toString len ++ ")") none (some len) none, off', nid)
      | .f32 =>
        match readUintBE buf off 4 with
        | .error e => .error e
        | .ok bits =>
          .ok (.mk id key .FLOAT (.float32 bits) "float(32)" none none none, off + 4, nid)
      | .f64 =>
        match readUintBE buf off 8 with
        | .error e => .error e
        | .ok bits =>
          .ok (.mk id key .FLOAT (.float64 bits) "float(64)" none none none, off + 8, nid)
      | .u8 =>
        match readUintBE buf off 1 with
        | .error e => .error e
        | .ok v => .ok (.mk id key .INTEGER (.num v) "uint(8)" none none none, off + 1, nid)
      | .u16 =>
        match readUintBE buf off 2 with
        | .error e => .error e
        | .ok v => .ok (.mk id key .INTEGER (.num v) "uint(16)" none none none, off + 2, nid)
      | .u32 =>
        match readUintBE buf off 4 with
        | .error e => .error e
        | .ok v => .ok (.mk id key .INTEGER (.num v) "uint(32)" none none none, off + 4, nid)
      | .u64 =>
        match readUintBE buf off 8 with
        | .error e => .error e
        | .ok v => .ok (.mk id key .INTEGER (.bigint v) "uint(64)" none none none, off + 8, nid)
      | .i8 =>
        match readUintBE buf off 1 with
        | .error e => .error e
        | .ok v => .ok (.mk id key .INTEGER (.num (toSigned 1 v)) "int(8)" none none none, off + 1, nid)
      | .i16 =>
        match readUintBE buf off 2 with
        | .error e => .error e
        | .ok v => .ok (.mk id key .INTEGER (.num (toSigned 2 v)) "int(16)" none none none, off + 2, nid)
      | .i32 =>
        match readUintBE buf off 4 with
        | .error e => .error e
        | .ok v => .ok (.mk id key .INTEGER (.num (toSigned 4 v)) "int(32)" none none none, off + 4, nid)
      | .i64 =>
        match readUintBE buf off 8 with
        | .error e => .error e
        | .ok v => .ok (.mk id key .INTEGER (.bigint (toSigned 8 v)) "int(64)" none none none, off + 8, nid)
      | .fixext1 => readExt buf off nid 1 "fixext1"
      | .fixext2 => readExt buf off nid 2 "fixext2"
      | .fixext4 => readExt buf off nid 4 "fixext4"
      | .fixext8 => readExt buf off nid 8 "fixext8"
      | .fixext16 => readExt buf off nid 16 "fixext16"
      | .ext8 =>
        match readUintBE buf off 1 with
        | .error e => .error e
        | .ok len => readExt buf (off + 1) nid len "ext8"
      | .ext16 =>
        match readUintBE buf off 2 with
        | .error e => .error e
        | .ok len => readExt buf (off + 2) nid len "ext16"
      | .ext32 =>
        match readUintBE buf off 4 with
        | .error e => .error e
        | .ok len => readExt buf (off + 4) nid len "ext32"
      | .str8 =>
        match readUintBE buf off 1 with
        | .error e => .error e
        | .ok len =>
          match readStringP buf (off + 1) len with
          | .error e => .error e
          | .ok (s, off') =>
            .ok (.mk id key .STRING (.str s) ("str8(" ++ toString len ++ ")") none (some len) none, off', nid)
      | .str16 =>
        match readUintBE buf off 2 with
        | .error e => .error e
        | .ok len =>
          match readStringP buf (off + 2) len with
          | .error e => .error e
          | .ok (s, off') =>
            .ok (.mk id key .STRING (.str s) ("str16(" ++ toString len ++ ")") none (some len) none, off', nid)
      | .str32 =>
        match readUintBE buf off 4 with
        | .error e => .error e
        | .ok len =>
          match readStringP buf (off + 4) len with
          | .error e => .error e
          | .ok (s, off') =>
            .ok (.mk id key .STRING (.str s) ("str32(" ++ toString len ++ ")") none (some len) none, off', nid)
      | .arr16 =>
        match readUintBE buf off 2 with
        | .error e => .error e
        | .ok len =>
          match parseItems p len (off + 2) nid with
          | .error e => .error e
          | .ok (cs, off', nid') =>
            .ok (.mk id key .ARRAY .null ("arr16(" ++ toString len ++ ")") (some cs) (some len) none, off', nid')
      | .arr32 =>
        match readUintBE buf off 4 with
        | .error e => .error e
        | .ok len =>
          match parseItems p len (off + 4) nid with
          | .error e => .error e
          | .ok (cs, off', nid') =>
            .ok (.mk id key .ARRAY .null ("arr32(" ++ toString len ++ ")") (some cs) (some len) none, off', nid')
      | .map16 =>
        match readUintBE buf off 2 with
        | .error e => .error e
        | .ok len =>
          match parseEntries p len (off + 2) nid with
          | .error e => .error e
          | .ok (cs, off', nid') =>
            .ok (.mk id key .MAP .null ("map16(" ++ toString len ++ ")") (some cs) (some len) none, off', nid')
      | .map32 =>
        match readUintBE buf off 4 with
        | .error e => .error e
        | .ok len =>
          match parseEntries p len (off + 4) nid with
          | .error e => .error e
          | .ok (cs, off', nid') =>
            .ok (.mk id key .MAP .null ("map32(" ++ toString len ++ ")") (some cs) (some len) none, off', nid')
      | .unknownTag => .error (.unknownByte byte off0)

/-- `MsgpackParser.parse`, fuel-based.  Arguments: fuel, buffer, offset,
next node id, and the `key` passed from a parent map entry.  Returns the
node together with the advanced offset and id counter.  One unit of fuel
is spent per recursion level; since each level consumes the tag byte
first, fuel = buffer length + 1 always suffices. -/
def parseFuel : Nat → List Nat → Nat → Nat → Option KeyV → Except Err (ParsedNode × Nat × Nat)
  | 0, _, _, _, _ => .error .outOfFuel
  | fuel+1, buf, off0, nid0, key =>
    if off0 ≥ buf.length then .error (.unexpectedEnd none)
    else parseDispatch (parseFuel fuel buf) buf (buf.getD off0 0) off0 nid0 key

/-- A single top-level decode of a buffer, with sufficient fuel, starting
at offset 0 with the id counter reset to 0 (the `nodeIdCounter = 0` line
at the top of `parseMsgpack`). -/
def parseTop (buf : List Nat) : Except Err (ParsedNode × Nat × Nat) :=
  parseFuel (buf.length + 1) buf 0 0 none

/-- The tail of `parseMsgpack` after byte recovery: the empty-bytes check,
one `parser.parse()` call, and result wrapping.  Trailing bytes after the
first value are not examined. -/
def decodeBytes (bytes : List Nat) (detected : InputFormat) : ParseResult :=
  if bytes.length = 0 then .failure "Empty input"
  else
    match parseTop bytes with
    | .error e => .failure e.message
    | .ok (root, _, _) => .success root detected bytes

/-- `parseMsgpack` (src/unnamed/part_002): recover bytes per the requested
format (auto-detecting when AUTO), then decode.  Any thrown error is
caught and surfaced as a failure carrying the error's message. -/
def parseMsgpack (input : String) (format : InputFormat) : ParseResult :=
  match format with
  | .AUTO =>
    match autoDetectAndDecode input with
    | .error e => .failure e
    | .ok (bytes, detected) => decodeBytes bytes detected
  | .HEX =>
    match parseHex input with
    | .error e => .failure e
    | .ok bytes => decodeBytes bytes .HEX
  | .BASE64 =>
    match parseBase64 input with
    | .error e => .failure e
    | .ok bytes => decodeBytes bytes .BASE64
  | .PYTHON => decodeBytes (parsePythonBytes input) .PYTHON

/-! ## decoderUtils.ts: bytesToBase64 and serializeNode (tree projector) -/

/-- The plain JSON-compatible value produced by the projector.
`float32`/`float64` are JS numbers originating from float nodes, kept as
their wire bit patterns; `bytesLeak` represents a raw Uint8Array reaching
a projected position (impossible for trees the decoder produces, present
only to keep the translation total). -/
inductive JVal where
  | null
  | bool (b : Bool)
  | int (i : Int)
  | float32 (bits : Nat)
  | float64 (bits : Nat)
  | str (s : String)
  | bytesLeak (bs : List Nat)
  | arr (elems : List JVal)
  | obj (entries : List (String × JVal))

/-- Base64 alphabet character of a 6-bit value. -/
def b64CharOfVal (v : Nat) : Char :=
  if v < 26 then Char.ofNat ('A'.toNat + v)
  else if v < 52 then Char.ofNat ('a'.toNat + v - 26)
  else if v < 62 then Char.ofNat ('0'.toNat + v - 52)
  else if v = 62 then '+'
  else '/'

/-- Standard base64 encoding with padding (the `btoa` of the
binary string built by `bytesToBase64`). -/
def b64Encode : List Nat → List Char
  | b1 :: b2 :: b3 :: rest =>
      b64CharOfVal (b1 / 4) :: b64CharOfVal ((b1 % 4) * 16 + b2 / 16) ::
      b64CharOfVal ((b2 % 16) * 4 + b3 / 64) :: b64CharOfVal (b3 % 64) :: b64Encode rest
  | [b1, b2] =>
      [b64CharOfVal (b1 / 4), b64CharOfVal ((b1 % 4) * 16 + b2 / 16),
       b64CharOfVal ((b2 % 16) * 4), '=']
  | [b1] => [b64CharOfVal (b1 / 4), b64CharOfVal ((b1 % 4) * 16), '=', '=']
  | [] => []

/-- `decoderUtils.ts` bytesToBase64. -/
def bytesToBase64 (bs : List Nat) : String :=
  ⟨b64Encode bs⟩

/-- JS shortest-round-trip formatting of a double is a platform detail
the embedding does not reproduce digit-for-digit; float-valued strings
are kept abstract as a tagged rendering of the bit pattern.  No claim
depends on this rendering. -/
def floatReprJs (w bits : Nat) : String :=
  "float" ++ toString w ++ ":" ++ toString bits

/-- JS `String(x)` on the possible unwrapped key values (the
`String(child.key)` branch of serializeNode): null prints "null",
booleans print their words, numbers and BigInts print in decimal, a
Uint8Array prints its comma-joined bytes. -/
def jsStringOfValue : Value → String
  | .null => "null"
  | .bool true => "true"
  | .bool false => "false"
  | .num i => toString i
  | .bigint i => toString i
  | .float32 b => floatReprJs 32 b
  | .float64 b => floatReprJs 64 b
  | .str s => s
  | .bin bs => String.intercalate "," (bs.map toString)

/-- Hex digit character (lowercase) for JSON escapes. -/
def hexDigitChar (n : Nat) : Char :=
  if n < 10 then Char.ofNat ('0'.toNat + n) else Char.ofNat ('a'.toNat + n - 10)

/-- JSON string-character escaping as in `JSON.stringify`. -/
def jsonEscapeChar (c : Char) : List Char :=
  if c = dquote then [bslash, dquote]
  else if c = bslash then [bslash, bslash]
  else if c = Char.ofNat 8 then [bslash, 'b']
  else if c = Char.ofNat 12 then [bslash, 'f']
  else if c = '\n' then [bslash, 'n']
  else if c = '\r' then [bslash, 'r']
  else if c = '\t' then [bslash, 't']
  else if c.toNat < 32 then
    [bslash, 'u', '0', '0', hexDigitChar (c.toNat / 16), hexDigitChar (c.toNat % 16)]
  else [c]

/-- A JSON string literal for `s`. -/
def jsonQuote (s : String) : String :=
  ⟨dquote :: (s.data.flatMap jsonEscapeChar) ++ [dquote]⟩

/-- Entries of `JSON.stringify` applied to a raw Uint8Array (index keys
and byte values); unreachable from decoder-produced trees. -/
def jsonBytesEntries (i : Nat) : List Nat → String
  | [] => ""
  | [b] => jsonQuote (toString i) ++ ":" ++ toString b
  | b :: b2 :: rest =>
      jsonQuote (toString i) ++ ":" ++ toString b ++ "," ++ jsonBytesEntries (i + 1) (b2 :: rest)

mutual

/-- `JSON.stringify` on a projected plain value (used by serializeNode to
stringify complex map keys). -/
def jsonStringify : JVal → String
  | .null => "null"
  | .bool true => "true"
  | .bool false => "false"
  | .int i => toString i
  | .float32 b => floatReprJs 32 b
  | .float64 b => floatReprJs 64 b
  | .str s => jsonQuote s
  | .bytesLeak bs => "\x7b" ++ jsonBytesEntries 0 bs ++ "\x7d"
  | .arr es => "[" ++ jsonElemsString es ++ "]"
  | .obj kvs => "\x7b" ++ jsonEntriesString kvs ++ "\x7d"
termination_by v => sizeOf v

/-- Comma-joined stringification of array elements. -/
def jsonElemsString : List JVal → String
  | [] => ""
  | [x] => jsonStringify x
  | x :: y :: xs => jsonStringify x ++ "," ++ jsonElemsString (y :: xs)
termination_by l => sizeOf l

/-- Comma-joined stringification of object entries. -/
def jsonEntriesString : List (String × JVal) → String
  | [] => ""
  | [(k, v)] => jsonQuote k ++ ":" ++ jsonStringify v
  | (k, v) :: e :: kvs => jsonQuote k ++ ":" ++ jsonStringify v ++ "," ++ jsonEntriesString (e :: kvs)
termination_by kvs => sizeOf kvs

end

/-- JS object property assignment `obj[k] = v`: overwrite in place when
the key exists (keeping its original position), append otherwise. -/
def objUpsert (kvs : List (String × JVal)) (k : String) (v : JVal) : List (String × JVal) :=
  match kvs with
  | [] => [(k, v)]
  | (k0, v0) :: rest => if k0 = k then (k0, v) :: rest else (k0, v0) :: objUpsert rest k v

/-- The `node.value as Uint8Array` cast of the BINARY and EXTENSION
cases (always a `bin` value for decoder-produced nodes). -/
def binOf : Value → List Nat
  | .bin bs => bs
  | _ => []

/-- The `key` field is structurally smaller than its node (used for the
projector's termination). -/
theorem sizeOf_key_lt (c : ParsedNode) : sizeOf c.key < sizeOf c := by
  cases c with
  | mk i k ty v raw ch bl me => simp [ParsedNode.key]; omega

/-- A node `value` placed directly into the projected output (the
BOOLEAN/FLOAT/STRING/default `return node.value` cases and the non-BigInt
INTEGER case). -/
def jvalOfValue : Value → JVal
  | .null => .null
  | .bool b => .bool b
  | .num i => .int i
  | .bigint i => .int i
  | .float32 b => .float32 b
  | .float64 b => .float64 b
  | .str s => .str s
  | .bin bs => .bytesLeak bs

mutual

/-- `decoderUtils.ts` serializeNode: project a decoded node to a plain
JSON-compatible value.  The MAP case folds children into an object whose
keys are stringified (string keys verbatim, complex node keys via
`JSON.stringify` of their projection, other primitives via `String()`),
with collisions overwriting; BINARY becomes base64 text; INTEGER becomes
a decimal string when the value is a BigInt (the wide 64-bit cases) and
the native number otherwise; EXTENSION becomes a tagged descriptor
object. -/
def serializeNode : ParsedNode → JVal
  | .mk _ _ ty v _ children _ meta =>
    match ty with
    | .MAP =>
        .obj (serializeMapGo [] (match children with | some cs => cs | none => []))
    | .ARRAY =>
        .arr (serializeList (match children with | some cs => cs | none => []))
    | .BINARY => .str (bytesToBase64 (binOf v))
    | .INTEGER =>
        match v with
        | .bigint i => .str (toString i)
        | v' => jvalOfValue v'
    | .EXTENSION =>
        .obj [("__ext_type", match meta with | some t => .int t | none => .null),
              ("data", .str (bytesToBase64 (binOf v)))]
    | .NULL => .null
    | .BOOLEAN => jvalOfValue v
    | .FLOAT => jvalOfValue v
    | .STRING => jvalOfValue v
    | _ => jvalOfValue v
termination_by n => sizeOf n
decreasing_by
  all_goals (simp_wf; split <;> simp_all <;> omega)

/-- `node.children?.map(serializeNode)` for arrays. -/
def serializeList : List ParsedNode → List JVal
  | [] => []
  | c :: cs => serializeNode c :: serializeList cs
termination_by l => sizeOf l

/-- The `forEach` accumulation of the MAP case. -/
def serializeMapGo (acc : List (String × JVal)) : List ParsedNode → List (String × JVal)
  | [] => acc
  | c :: cs => serializeMapGo (objUpsert acc (keyString c.key) (serializeNode c)) cs
termination_by l => sizeOf l
decreasing_by
  all_goals simp_wf
  all_goals try omega
  all_goals (have hk := sizeOf_key_lt c; omega)

/-- The `keyStr` computation of the MAP case: a string key is used
verbatim; a non-null object key (a full node) is stringified via
`JSON.stringify` of its projection; any other key goes through
`String()`.  (`none` would be JS `undefined`, impossible for a map child;
an unwrapped Uint8Array key is likewise unreachable because `getKey`
never unwraps BINARY/EXTENSION nodes.) -/
def keyString : Option KeyV → String
  | some (.inl (.str s)) => s
  | some (.inr n) => jsonStringify (serializeNode n)
  | some (.inl v) => jsStringOfValue v
  | none => "undefined"
termination_by k => sizeOf k

end

/-! ## Identity traversals (for the node-identity claims)

`idsOf` lists the generated ids retained in a (sub)tree in creation
order: the ids of the key node attached to a map value come first (the
key node is decoded before the value node), then the node's own id, then
the children in order.  `ownIds` is the same traversal without the node's
incoming key.  Ids consumed by nodes the decoder discards (unwrapped
primitive key nodes, the pre-allocated node replaced in the extension
branches) do not appear in the tree; the traversal is therefore
increasing but not contiguous. -/

mutual

def idsOf : ParsedNode → List Nat
  | .mk i k _ _ _ children _ _ =>
    keyIds k ++ i :: (match children with | some cs => listIds cs | none => [])

def ownIds : ParsedNode → List Nat
  | .mk i _ _ _ _ children _ _ =>
    i :: (match children with | some cs => listIds cs | none => [])

def listIds : List ParsedNode → List Nat
  | [] => []
  | c :: cs => idsOf c ++ listIds cs

def keyIds : Option KeyV → List Nat
  | some (.inr n) => idsOf n
  | _ => []

end

/-! ## Claim-side (spec-worded) definitions -/

/-- The key rule exactly as the specification words it: if the key node's
kind is one of the primitives Null, Boolean, Integer, Float, String, its
raw value is unwrapped and used directly; otherwise the full key node
itself is used. -/
def getKeySpec (k : ParsedNode) : KeyV :=
  match k.type with
  | .NULL | .BOOLEAN | .INTEGER | .FLOAT | .STRING => .inl k.value
  | _ => .inr k

/-- The specification's description of map-entry decoding, as an
inductive relation over an entry parser `p`: for each entry, first a key
node is decoded with no associated key, the key is resolved by the
primitive-unwrap rule, then the value node is decoded with that resolved
key, and the value node (not the key node) is appended to the children. -/
inductive EntriesSpec (p : Nat → Nat → Option KeyV → Except Err (ParsedNode × Nat × Nat)) :
    Nat → Nat → Nat → List ParsedNode → Nat → Nat → Prop
  | nil (off nid : Nat) : EntriesSpec p 0 off nid [] off nid
  | cons (n off nid : Nat) (k v : ParsedNode) (o1 i1 o2 i2 o3 i3 : Nat) (vs : List ParsedNode) :
      p off nid none = .ok (k, o1, i1) →
      p o1 i1 (some (getKeySpec k)) = .ok (v, o2, i2) →
      EntriesSpec p n o2 i2 vs o3 i3 →
      EntriesSpec p (n + 1) off nid (v :: vs) o3 i3

/-- Discriminator for the decoder's unexpected-end error family. -/
def Err.isUnexpectedEnd : Err → Bool
  | .unexpectedEnd _ => true
  | _ => false

/-- The root node's identity of a successful parse result. -/
def rootId : ParseResult → Option Nat
  | .success d _ _ => some d.id
  | .failure _ => none

/-- All ids of `l` lie in `[lo, hi)` and are strictly increasing. -/
def OwnBounds (lo hi : Nat) (l : List Nat) : Prop :=
  (∀ j ∈ l, lo ≤ j ∧ j < hi) ∧ l.Pairwise (· < ·)

/-- The per-call invariant the main parse lemma establishes, relative to
a "larger" parser `q` (same parser over an extended buffer and/or more
fuel): success transfers to `q` unchanged; the id counter strictly
advances; the retained ids are increasing and confined to the consumed
counter interval; the node records the passed key except for extension
nodes, which are built without one. -/
def StepOk (p q : Nat → Nat → Option KeyV → Except Err (ParsedNode × Nat × Nat)) : Prop :=
  ∀ off nid key node o' n', p off nid key = .ok (node, o', n') →
    q off nid key = .ok (node, o', n') ∧ nid < n' ∧ OwnBounds nid n' (ownIds node) ∧
    (node.key = key ∨ (node.type = .EXTENSION ∧ node.key = none))

end MV

deriving instance DecidableEq for Except

namespace MV

/-! ## Claim C2 (truncation policy) -/

/-- C2 counterexample: the claim also covers fixed-width scalar reads,
but decoding the single byte 0xcc (a uint8 tag with no payload byte)
fails with the DataView's out-of-bounds RangeError, which is not an
UnexpectedEnd error naming the element being read and the offset. -/
theorem C2_counterexample :
    parseTop [0xcc] = .error .rangeError ∧
    Err.rangeError.isUnexpectedEnd = false :=
  ⟨rfl, rfl⟩

/-- C2 (amended): a string, binary or extension payload read that would
pass the end of the buffer fails with UnexpectedEnd naming the element
being read (but not the offset, which the message omits); an
out-of-bounds fixed-width scalar read fails with the byte view's range
error instead; no partial node is returned (an error carries no node).
In particular decoding 0xa5 (fixstr of length 5) followed by only 3
payload bytes fails with UnexpectedEnd (String). -/
theorem C2_truncation_amended :
    (∀ (buf : List Nat) (off len : Nat), off + len > buf.length →
        readStringP buf off len = .error (.unexpectedEnd (some "String"))) ∧
    (∀ (buf : List Nat) (off len : Nat), off + len > buf.length →
        readBinP buf off len = .error (.unexpectedEnd (some "Binary"))) ∧
    (∀ (buf : List Nat) (off w : Nat), off + w > buf.length →
        readUintBE buf off w = .error .rangeError) ∧
    parseTop [0xa5, 118, 97, 108] = .error (.unexpectedEnd (some "String")) ∧
    (Err.unexpectedEnd (some "String")).message = "Unexpected end of input (String)" := by
  refine ⟨?_, ?_, ?_, rfl, rfl⟩
  · intro buf off len h; simp [readStringP, h]
  · intro buf off len h; simp [readBinP, h]
  · intro buf off w h; simp [readUintBE, h]

/-- C2 witness: the amended theorem applied at concrete truncated reads. -/
theorem C2_truncation_amended_witness :
    readStringP [1, 2] 1 5 = .error (.unexpectedEnd (some "String")) ∧
    readBinP [1, 2] 0 3 = .error (.unexpectedEnd (some "Binary")) ∧
    readUintBE [1] 0 2 = .error .rangeError :=
  ⟨C2_truncation_amended.1 [1, 2] 1 5 (by decide),
   C2_truncation_amended.2.1 [1, 2] 0 3 (by decide),
   C2_truncation_amended.2.2.1 [1] 0 2 (by decide)⟩

/-! ## Claim C3 (64-bit integers, decimal projection) -/

/-- C3: decoding 0xcf followed by the big-endian bytes of 2^32 yields an
Integer node holding the exact BigInt 4294967296; the projector renders
every BigInt-valued (64-bit-class) Integer node as its decimal string,
and every native-number Integer node as that native number. -/
theorem C3_uint64_exact :
    parseTop [0xcf, 0, 0, 0, 1, 0, 0, 0, 0] =
      .ok (.mk 0 none .INTEGER (.bigint 4294967296) "uint(64)" none none none, 9, 1) ∧
    (∀ (n : ParsedNode) (m : Int), n.type = .INTEGER → n.value = .bigint m →
        serializeNode n = .str (toString m)) ∧
    (∀ (n : ParsedNode) (i : Int), n.type = .INTEGER → n.value = .num i →
        serializeNode n = .int i) := by
  refine ⟨rfl, ?_, ?_⟩
  · intro n m ht hv
    cases n with
    | mk a k ty v raw ch bl me =>
      simp [ParsedNode.type] at ht
      simp [ParsedNode.value] at hv
      subst ht; subst hv
      simp [serializeNode]
  · intro n i ht hv
    cases n with
    | mk a k ty v raw ch bl me =>
      simp [ParsedNode.type] at ht
      simp [ParsedNode.value] at hv
      subst ht; subst hv
      simp [serializeNode, jvalOfValue]

/-- C3 witness: the projection statements applied to the decoded
uint64 node and to a narrow-integer node. -/
theorem C3_uint64_exact_witness :
    serializeNode (.mk 0 none .INTEGER (.bigint 4294967296) "uint(64)" none none none) =
      .str "4294967296" ∧
    serializeNode (.mk 0 none .INTEGER (.num 7) "uint(8)" none none none) = .int 7 := by
  have h := C3_uint64_exact
  exact ⟨h.2.1 _ 4294967296 rfl rfl, h.2.2 _ 7 rfl rfl⟩

/-! ## Claim C5 (escaped-byte-string scanning) -/

/-- C5: the escape scan of the escaped-byte-string recovery: a valid
two-hex-digit `\xHH` emits that byte value; an absent or invalid pair
emits the literal backslash (92) and x (120) bytes, advancing exactly two
characters, with no error; the named escapes map to 10, 13, 9, 92, 34,
39, 0; any other escaped character emits its own character code with the
backslash dropped; a lone trailing backslash emits 92; and
parsePythonBytes is exactly this scan (after quote stripping) with each
emitted code truncated to a byte. -/
theorem C5_escape_scan :
    (∀ (c1 c2 : Char) (rest : List Char), isHexDigitChar c1 = true → isHexDigitChar c2 = true →
        scanEscapes (bslash :: 'x' :: c1 :: c2 :: rest) =
          (hexVal c1 * 16 + hexVal c2) :: scanEscapes rest) ∧
    (∀ (c1 c2 : Char) (rest : List Char), (isHexDigitChar c1 && isHexDigitChar c2) = false →
        scanEscapes (bslash :: 'x' :: c1 :: c2 :: rest) =
          92 :: 120 :: scanEscapes (c1 :: c2 :: rest)) ∧
    (∀ c1 : Char, scanEscapes [bslash, 'x', c1] = 92 :: 120 :: scanEscapes [c1]) ∧
    scanEscapes [bslash, 'x'] = [92, 120] ∧
    (∀ rest : List Char,
        scanEscapes (bslash :: 'n' :: rest) = 10 :: scanEscapes rest ∧
        scanEscapes (bslash :: 'r' :: rest) = 13 :: scanEscapes rest ∧
        scanEscapes (bslash :: 't' :: rest) = 9 :: scanEscapes rest ∧
        scanEscapes (bslash :: bslash :: rest) = 92 :: scanEscapes rest ∧
        scanEscapes (bslash :: dquote :: rest) = 34 :: scanEscapes rest ∧
        scanEscapes (bslash :: squote :: rest) = 39 :: scanEscapes rest ∧
        scanEscapes (bslash :: '0' :: rest) = 0 :: scanEscapes rest) ∧
    (∀ (c : Char) (rest : List Char), c ≠ 'x' →
        scanEscapes (bslash :: c :: rest) = escByte c :: scanEscapes rest) ∧
    (∀ c : Char, c ≠ 'n' → c ≠ 'r' → c ≠ 't' → c ≠ bslash → c ≠ dquote → c ≠ squote →
        c ≠ '0' → escByte c = c.toNat) ∧
    scanEscapes [bslash] = [92] ∧
    (∀ s : String, parsePythonBytes s = (scanEscapes (stripBWrap (jsTrim s.data))).map (· % 256)) := by
  refine ⟨?_, ?_, ?_, ?_, ?_, ?_, ?_, ?_, fun s => rfl⟩
  · intro c1 c2 rest h1 h2
    simp [scanEscapes, h1, h2]
  · intro c1 c2 rest h
    simp [scanEscapes, h]
  · intro c1; simp [scanEscapes]
  · simp [scanEscapes]
  · intro rest
    refine ⟨?_, ?_, ?_, ?_, ?_, ?_, ?_⟩ <;> (rw [scanEscapes.eq_def]; simp +decide [escByte])
  · intro c rest h
    rw [scanEscapes.eq_def]
    simp +decide [h]
  · intro c h1 h2 h3 h4 h5 h6 h7
    simp [escByte, h1, h2, h3, h4, h5, h6, h7]
  · simp [scanEscapes]

/-- C5 witness: the scan statements at concrete inputs. -/
theorem C5_escape_scan_witness :
    scanEscapes [bslash, 'x', '4', '1'] = [65] ∧
    scanEscapes [bslash, 'x', 'g', '1'] = [92, 120, 103, 49] ∧
    scanEscapes [bslash, 'n'] = [10] ∧
    escByte 'q' = 113 ∧
    parsePythonBytes "A" = [65] := by
  have h := C5_escape_scan
  refine ⟨?_, ?_, ?_, ?_, ?_⟩
  · rw [h.1 '4' '1' [] (by decide) (by decide)]; simp +decide [scanEscapes.eq_def, hexVal]
  · rw [h.2.1 'g' '1' [] (by decide)]; simp +decide [scanEscapes.eq_def]
  · exact (h.2.2.2.2.1 []).1.trans (by simp [scanEscapes.eq_def])
  · exact h.2.2.2.2.2.2.1 'q' (by decide) (by decide) (by decide) (by decide) (by decide)
      (by decide) (by decide)
  · rw [h.2.2.2.2.2.2.2.2 "A"]; simp +decide [scanEscapes.eq_def, stripBWrap, jsTrim, isJsWs]

/-! ## Claim C6 (hex recovery) -/

/-- C6 counterexample: the claim says hex recovery fails exactly when the
cleaned text has odd length or contains a non-hex character, but the
empty input (even length, no characters at all) also fails, with
"Invalid Hex characters". -/
theorem C6_counterexample :
    parseHex "" = .error "Invalid Hex characters" ∧
    (stripWs (strip0x "".data)).length % 2 = 0 ∧
    (stripWs (strip0x "".data)).all isHexDigitChar = true :=
  ⟨rfl, rfl, rfl⟩

/-- C6 (amended): after stripping an optional leading 0x and all
whitespace, hex recovery fails with the length error when the remaining
length is odd, fails with the character error when the remainder is empty
or contains a non-hex character, and otherwise decodes big-endian byte
pairs; parseHex "81a3666f6f" = [0x81,0xa3,0x66,0x6f,0x6f] and
parseHex "0xAB" = parseHex "ab". -/
theorem C6_hex_amended :
    (∀ s : String, (stripWs (strip0x s.data)).length % 2 ≠ 0 →
        parseHex s = .error "Invalid Hex string length") ∧
    (∀ s : String, (stripWs (strip0x s.data)).length % 2 = 0 →
        hexReTest (stripWs (strip0x s.data)) = false →
        parseHex s = .error "Invalid Hex characters") ∧
    (∀ s : String, (stripWs (strip0x s.data)).length % 2 = 0 →
        hexReTest (stripWs (strip0x s.data)) = true →
        parseHex s = .ok (hexPairs (stripWs (strip0x s.data)))) ∧
    (∀ l : List Char, hexReTest l = false ↔ l = [] ∨ ∃ c ∈ l, isHexDigitChar c = false) ∧
    parseHex "81a3666f6f" = .ok [0x81, 0xa3, 0x66, 0x6f, 0x6f] ∧
    parseHex "0xAB" = parseHex "ab" ∧
    parseHex "0xAB" = .ok [0xab] := by
  refine ⟨?_, ?_, ?_, ?_, by decide, by decide, by decide⟩
  · intro s h; simp [parseHex, parseHexL, h]
  · intro s h1 h2; simp [parseHex, parseHexL, h1, h2]
  · intro s h1 h2; simp [parseHex, parseHexL, h1, h2]
  · intro l
    simp [hexReTest, List.isEmpty_iff, List.all_eq_true]
    tauto

/-- C6 witness: the amended characterisation applied at concrete inputs. -/
theorem C6_hex_amended_witness :
    parseHex "abc" = .error "Invalid Hex string length" ∧
    parseHex "zz" = .error "Invalid Hex characters" ∧
    parseHex "ff" = .ok [255] := by
  have h := C6_hex_amended
  exact ⟨h.1 "abc" (by decide), h.2.1 "zz" (by decide) (by decide),
         (h.2.2.1 "ff" (by decide) (by decide)).trans (by decide)⟩

/-! ## Claim C8 (auto-detection failure error) -/

/-- C8 counterexample: the claim says the FormatUndetected error carries
the accumulated per-candidate error messages, but the thrown error is the
same fixed message whether the attempt log is empty ("!!!!": no candidate
tried) or records a failed base64 attempt ("====": the base64 candidate
threw).  The accumulated array is discarded. -/
theorem C8_counterexample :
    autoDetectAndDecode "====" = .error autoDetectFailMsg ∧
    autoDetectCore (jsTrim "====".data) = .error ["Base64: Error: Invalid Base64 string"] ∧
    autoDetectAndDecode "!!!!" = .error autoDetectFailMsg ∧
    autoDetectCore (jsTrim "!!!!".data) = .error [] :=
  ⟨rfl, rfl, rfl, rfl⟩

/-- C8 (amended): when auto-detection exhausts all candidates it fails
with the single fixed FormatUndetected message; the per-candidate error
messages are accumulated internally but are not part of the surfaced
error. -/
theorem C8_undetected_amended :
    ∀ (s : String) (errs : List String),
      autoDetectCore (jsTrim s.data) = .error errs →
      autoDetectAndDecode s = .error autoDetectFailMsg := by
  intro s errs h
  unfold autoDetectAndDecode
  rw [h]

/-- C8 witness: the amended statement applied at a concrete
undetectable input. -/
theorem C8_undetected_amended_witness :
    autoDetectAndDecode "====" = .error autoDetectFailMsg :=
  C8_undetected_amended "====" ["Base64: Error: Invalid Base64 string"] rfl

/-! ## Claim C4 (auto-detection priority) -/

/-- When the step-2 guard holds, the hex parse it attempts succeeds
(the guard recomputes exactly the cleaning parseHex performs). -/
theorem parseHexL_ok_of_guard (l : List Char)
    (h1 : (stripWs (strip0x l)).length % 2 = 0)
    (h2 : hexReTest (stripWs (strip0x l)) = true) :
    parseHexL l = .ok (hexPairs (stripWs (strip0x l))) := by
  simp [parseHexL, h1, h2]

/-- C4: the auto-detector tries, in order: escaped byte-string when the
trimmed text starts with a b quote (this parse cannot fail); hex when the
0x/whitespace-stripped text is nonempty, even and all hex digits (the
guard implies the parse succeeds, so step 2 returns whenever its guard
holds); base64 when the base64 shape guard holds and the base64 decode
succeeds; the escaped byte-string fallback when the text contains a
backslash-x pair; first success wins.  Consequently "8000", which
satisfies the base64 shape as well, resolves to Hex. -/
theorem C4_autodetect_priority :
    (∀ s : String, startsWithBQuote (jsTrim s.data) = true →
        autoDetectAndDecode s = .ok (parsePythonBytesL (jsTrim s.data), .PYTHON)) ∧
    (∀ s : String, startsWithBQuote (jsTrim s.data) = false →
        hexGuard (jsTrim s.data) = true →
        autoDetectAndDecode s = .ok (hexPairs (stripWs (strip0x (jsTrim s.data))), .HEX)) ∧
    (∀ (s : String) (bs : List Nat), startsWithBQuote (jsTrim s.data) = false →
        hexGuard (jsTrim s.data) = false →
        b64Guard (jsTrim s.data) = true →
        parseBase64L (jsTrim s.data) = .ok bs →
        autoDetectAndDecode s = .ok (bs, .BASE64)) ∧
    (∀ s : String, startsWithBQuote (jsTrim s.data) = false →
        hexGuard (jsTrim s.data) = false →
        b64Guard (jsTrim s.data) = false →
        hasBackslashX (jsTrim s.data) = true →
        autoDetectAndDecode s = .ok (parsePythonBytesL (jsTrim s.data), .PYTHON)) ∧
    (∀ (s : String) (e : String), startsWithBQuote (jsTrim s.data) = false →
        hexGuard (jsTrim s.data) = false →
        b64Guard (jsTrim s.data) = true →
        parseBase64L (jsTrim s.data) = .error e →
        hasBackslashX (jsTrim s.data) = true →
        autoDetectAndDecode s = .ok (parsePythonBytesL (jsTrim s.data), .PYTHON)) ∧
    (autoDetectAndDecode "8000" = .ok ([0x80, 0x00], .HEX) ∧
     b64Guard (jsTrim "8000".data) = true) := by
  refine ⟨?_, ?_, ?_, ?_, ?_, by decide, by decide⟩
  · intro s h
    simp [autoDetectAndDecode, autoDetectCore, h]
  · intro s h0 h1
    have he : (stripWs (strip0x (jsTrim s.data))).length % 2 = 0 := by
      simp [hexGuard, Bool.and_eq_true] at h1
      omega
    have hr : hexReTest (stripWs (strip0x (jsTrim s.data))) = true := by
      simp [hexGuard, Bool.and_eq_true] at h1
      exact h1.2
    simp [autoDetectAndDecode, autoDetectCore, h0, autoDetectStep2, h1,
          parseHexL_ok_of_guard _ he hr]
  · intro s bs h0 h1 h2 h3
    simp [autoDetectAndDecode, autoDetectCore, h0, autoDetectStep2, h1,
          autoDetectStep3, h2, h3]
  · intro s h0 h1 h2 h3
    simp [autoDetectAndDecode, autoDetectCore, h0, autoDetectStep2, h1,
          autoDetectStep3, h2, autoDetectStep4, h3]
  · intro s e h0 h1 h2 h3 h4
    simp [autoDetectAndDecode, autoDetectCore, h0, autoDetectStep2, h1,
          autoDetectStep3, h2, h3, autoDetectStep4, h4]

/-- C4 witness: the priority steps applied at concrete inputs. -/
theorem C4_autodetect_priority_witness :
    autoDetectAndDecode "b'A'" = .ok ([65], .PYTHON) ∧
    autoDetectAndDecode "c0" = .ok ([0xc0], .HEX) ∧
    autoDetectAndDecode "gQ==" = .ok ([0x81], .BASE64) ∧
    autoDetectAndDecode "$\\x81" = .ok ([36, 0x81], .PYTHON) := by
  have h := C4_autodetect_priority
  refine ⟨?_, ?_, ?_, ?_⟩
  · rw [h.1 "b'A'" (by decide)]
    simp +decide [parsePythonBytesL, jsTrim, stripBWrap, scanEscapes.eq_def, isJsWs]
  · exact (h.2.1 "c0" (by decide) (by decide)).trans (by decide)
  · exact h.2.2.1 "gQ==" [0x81] (by decide) (by decide) (by decide) (by decide)
  · rw [h.2.2.2.1 "$\\x81" (by decide) (by decide) (by decide) (by decide)]
    simp +decide [parsePythonBytesL, jsTrim, stripBWrap, scanEscapes.eq_def, isJsWs,
                  isHexDigitChar, hexVal]

/-! ## Claim C7 (empty input handling) -/

/-- Trimming an all-whitespace text leaves nothing. -/
theorem jsTrim_of_allWs (l : List Char) (h : l.all isJsWs = true) : jsTrim l = [] := by
  have h1 : l.dropWhile isJsWs = [] := by
    rw [List.dropWhile_eq_nil_iff]
    intro x hx
    exact (List.all_eq_true.mp h) x hx
  simp [jsTrim, h1]

/-- An all-whitespace text cannot begin with the literal "0x". -/
theorem strip0x_of_allWs (l : List Char) (h : l.all isJsWs = true) : strip0x l = l := by
  rw [strip0x.eq_def]
  split
  · simp +decide [isJsWs] at h
  · rfl

/-- Whitespace removal annihilates an all-whitespace text. -/
theorem stripWs_of_allWs (l : List Char) (h : l.all isJsWs = true) : stripWs l = [] := by
  rw [stripWs, List.filter_eq_nil_iff]
  intro x hx
  simp [(List.all_eq_true.mp h) x hx]

/-- C7 counterexample: for the Hex format the empty input does not
produce the dedicated EmptyInput failure: byte recovery runs first and
fails with the hex character error; for Auto it fails with the
format-undetected message. -/
theorem C7_counterexample :
    parseMsgpack "" .HEX = .failure "Invalid Hex characters" ∧
    parseMsgpack "" .AUTO = .failure autoDetectFailMsg ∧
    "Invalid Hex characters" ≠ "Empty input" ∧
    autoDetectFailMsg ≠ "Empty input" :=
  ⟨rfl, rfl, by decide, by decide⟩

/-- C7 (amended): empty or whitespace-only input yields the dedicated
"Empty input" failure only for the formats whose byte recovery succeeds
with zero bytes: EscapedByteString always, and Base64 when the
whitespace is the ASCII whitespace atob strips; for Hex the recovery
itself fails first with the character error, and for Auto the detector
fails with the format-undetected error. -/
theorem C7_empty_amended :
    ∀ s : String, s.data.all isJsWs = true →
      parseMsgpack s .PYTHON = .failure "Empty input" ∧
      parseMsgpack s .HEX = .failure "Invalid Hex characters" ∧
      parseMsgpack s .AUTO = .failure autoDetectFailMsg ∧
      (s.data.all isAsciiWs = true → parseMsgpack s .BASE64 = .failure "Empty input") := by
  intro s h
  have htrim := jsTrim_of_allWs s.data h
  have h0x := strip0x_of_allWs s.data h
  have hws := stripWs_of_allWs s.data h
  refine ⟨?_, ?_, ?_, ?_⟩
  · simp [parseMsgpack, parsePythonBytes, parsePythonBytesL, htrim, stripBWrap,
          scanEscapes.eq_def, decodeBytes]
  · simp [parseMsgpack, parseHex, parseHexL, h0x, hws, hexReTest]
  · have hauto : autoDetectAndDecode s = .error autoDetectFailMsg := by
      unfold autoDetectAndDecode
      rw [htrim]
      rfl
    simp [parseMsgpack, hauto]
  · intro h2
    have hfilter : s.data.filter (fun c => !isAsciiWs c) = [] := by
      rw [List.filter_eq_nil_iff]
      intro x hx
      simp [(List.all_eq_true.mp h2) x hx]
    simp [parseMsgpack, parseBase64, parseBase64L, atobBytes, hfilter, dropOneEq,
          b64Bytes, decodeBytes]

/-- C7 witness: the amended statement at concrete whitespace inputs. -/
theorem C7_empty_amended_witness :
    parseMsgpack " " .PYTHON = .failure "Empty input" ∧
    parseMsgpack " " .HEX = .failure "Invalid Hex characters" ∧
    parseMsgpack " " .BASE64 = .failure "Empty input" := by
  have h := C7_empty_amended " " (by decide)
  exact ⟨h.1, h.2.1, h.2.2.2 (by decide)⟩

/-! ## Parse invariants: framing (trailing bytes) and id discipline

These helpers support the identity-counter claim and the trailing-bytes
claim: a successful parse transfers unchanged to the same buffer with
extra bytes appended (and to any larger fuel), and the ids retained in
the produced tree are strictly increasing within the id-counter interval
the parse consumed. -/

theorem OwnBounds.nil (lo hi : Nat) : OwnBounds lo hi [] :=
  ⟨by simp, by simp⟩

theorem OwnBounds.single (lo hi j : Nat) (h1 : lo ≤ j) (h2 : j < hi) :
    OwnBounds lo hi [j] :=
  ⟨by simp [h1, h2], by simp⟩

theorem OwnBounds.mono {lo hi lo' hi' : Nat} {l : List Nat}
    (h : OwnBounds lo hi l) (h1 : lo' ≤ lo) (h2 : hi ≤ hi') : OwnBounds lo' hi' l := by
  refine ⟨fun j hj => ?_, h.2⟩
  have := h.1 j hj
  omega

theorem OwnBounds.append {lo mid hi : Nat} {l1 l2 : List Nat}
    (h1 : OwnBounds lo mid l1) (h2 : OwnBounds mid hi l2) (hm1 : lo ≤ mid) (hm2 : mid ≤ hi) :
    OwnBounds lo hi (l1 ++ l2) := by
  refine ⟨fun j hj => ?_, ?_⟩
  · rcases List.mem_append.mp hj with hj | hj
    · have := h1.1 j hj; omega
    · have := h2.1 j hj; omega
  · rw [List.pairwise_append]
    refine ⟨h1.2, h2.2, fun a ha b hb => ?_⟩
    have := h1.1 a ha
    have := h2.1 b hb
    omega

theorem OwnBounds.cons_head {lo hi j : Nat} {l : List Nat}
    (h : OwnBounds (j + 1) hi l) (h1 : lo ≤ j) (h2 : j < hi) :
    OwnBounds lo hi (j :: l) := by
  refine ⟨fun a ha => ?_, ?_⟩
  · rcases List.mem_cons.mp ha with rfl | ha
    · omega
    · have := h.1 a ha; omega
  · rw [List.pairwise_cons]
    exact ⟨fun a ha => by have := h.1 a ha; omega, h.2⟩

@[simp] theorem ownIds_mk_none (i : Nat) (k : Option KeyV) (ty : DataType) (v : Value)
    (raw : String) (bl : Option Nat) (me : Option Int) :
    ownIds (.mk i k ty v raw none bl me) = [i] := by
  simp [ownIds]

@[simp] theorem ownIds_mk_some (i : Nat) (k : Option KeyV) (ty : DataType) (v : Value)
    (raw : String) (cs : List ParsedNode) (bl : Option Nat) (me : Option Int) :
    ownIds (.mk i k ty v raw (some cs) bl me) = i :: listIds cs := by
  simp [ownIds]

@[simp] theorem listIds_nil : listIds [] = [] := by simp [listIds]

@[simp] theorem listIds_cons (c : ParsedNode) (cs : List ParsedNode) :
    listIds (c :: cs) = idsOf c ++ listIds cs := by simp [listIds]

@[simp] theorem keyIds_none : keyIds none = [] := by simp [keyIds]

@[simp] theorem keyIds_inl (v : Value) : keyIds (some (.inl v)) = [] := by simp [keyIds]

@[simp] theorem keyIds_inr (n : ParsedNode) : keyIds (some (.inr n)) = idsOf n := by
  simp [keyIds]

/-- A node's creation-order traversal splits into its incoming key's ids
and its own ids. -/
theorem idsOf_decomp (n : ParsedNode) : idsOf n = keyIds n.key ++ ownIds n := by
  cases n with
  | mk i k ty v raw ch bl me =>
    cases ch <;> simp [idsOf, ownIds, ParsedNode.key]

/-- A keyless node contributes only its own ids. -/
theorem idsOf_eq_ownIds (n : ParsedNode) (h : n.key = none) : idsOf n = ownIds n := by
  rw [idsOf_decomp, h, keyIds_none, List.nil_append]

/-! ### Frame lemmas for the bounded reads -/

theorem slice_append (l1 l2 : List Nat) (off w : Nat) (h : off + w ≤ l1.length) :
    ((l1 ++ l2).drop off).take w = (l1.drop off).take w := by
  rw [List.drop_append_of_le_length (by omega)]
  exact List.take_append_of_le_length (by rw [List.length_drop]; omega)

theorem readUintBE_append (buf extra : List Nat) (off w v : Nat)
    (h : readUintBE buf off w = .ok v) : readUintBE (buf ++ extra) off w = .ok v := by
  unfold readUintBE at h ⊢
  split at h
  · exact Except.noConfusion h
  · rename_i hle
    rw [if_neg (by simp only [List.length_append]; omega)]
    rw [slice_append buf extra off w (by omega)]
    exact h

theorem readStringP_append (buf extra : List Nat) (off len : Nat) (s : String) (o' : Nat)
    (h : readStringP buf off len = .ok (s, o')) :
    readStringP (buf ++ extra) off len = .ok (s, o') := by
  unfold readStringP at h ⊢
  split at h
  · exact Except.noConfusion h
  · rename_i hle
    rw [if_neg (by simp only [List.length_append]; omega)]
    rw [slice_append buf extra off len (by omega)]
    exact h

theorem readBinP_append (buf extra : List Nat) (off len : Nat) (bs : List Nat) (o' : Nat)
    (h : readBinP buf off len = .ok (bs, o')) :
    readBinP (buf ++ extra) off len = .ok (bs, o') := by
  unfold readBinP at h ⊢
  split at h
  · exact Except.noConfusion h
  · rename_i hle
    rw [if_neg (by simp only [List.length_append]; omega)]
    rw [slice_append buf extra off len (by omega)]
    exact h

theorem readExt_append (buf extra : List Nat) (off nid len : Nat) (lab : String)
    (r : ParsedNode × Nat × Nat) (h : readExt buf off nid len lab = .ok r) :
    readExt (buf ++ extra) off nid len lab = .ok r := by
  unfold readExt at h ⊢
  split at h
  · exact Except.noConfusion h
  · rename_i t ht
    rw [readUintBE_append buf extra off 1 t ht]
    split at h
    · exact Except.noConfusion h
    · rename_i data off2 hbin
      rw [readBinP_append buf extra (off + 1) len data off2 hbin]
      exact h

/-- Shape of a successful extension read: the node is built fresh with
the next id, no key, extension type, no children. -/
theorem readExt_shape (buf : List Nat) (off nid len : Nat) (lab : String)
    (node : ParsedNode) (o' n' : Nat) (h : readExt buf off nid len lab = .ok (node, o', n')) :
    n' = nid + 1 ∧ node.key = none ∧ node.type = .EXTENSION ∧ node.id = nid ∧
    ownIds node = [nid] := by
  unfold readExt at h
  split at h
  · exact Except.noConfusion h
  · split at h
    · exact Except.noConfusion h
    · simp only [Except.ok.injEq, Prod.mk.injEq] at h
      obtain ⟨h1, h2, h3⟩ := h
      subst h1; subst h3
      simp [ParsedNode.key, ParsedNode.type, ParsedNode.id]

/-- The array-element loop preserves the invariant. -/
theorem parseItems_main
    (p q : Nat → Nat → Option KeyV → Except Err (ParsedNode × Nat × Nat))
    (hp : StepOk p q) :
    ∀ (n off nid : Nat) (cs : List ParsedNode) (o' n' : Nat),
      parseItems p n off nid = .ok (cs, o', n') →
      parseItems q n off nid = .ok (cs, o', n') ∧ nid ≤ n' ∧ OwnBounds nid n' (listIds cs) := by
  intro n
  induction n with
  | zero =>
    intro off nid cs o' n' h
    simp only [parseItems, Except.ok.injEq, Prod.mk.injEq] at h
    obtain ⟨h1, h2, h3⟩ := h
    subst h1; subst h2; subst h3
    exact ⟨rfl, Nat.le_refl _, by rw [listIds_nil]; exact OwnBounds.nil _ _⟩
  | succ n ih =>
    intro off nid cs o' n' h
    rw [parseItems] at h
    split at h
    · exact Except.noConfusion h
    · rename_i c off1 nid1 hc
      split at h
      · exact Except.noConfusion h
      · rename_i cs2 off2 nid2 hrec
        simp only [Except.ok.injEq, Prod.mk.injEq] at h
        obtain ⟨h1, h2, h3⟩ := h
        subst h1; subst h2; subst h3
        obtain ⟨hqc, hlt, hb, hkey⟩ := hp _ _ _ _ _ _ hc
        obtain ⟨hq2, hle2, hb2⟩ := ih _ _ _ _ _ hrec
        have hcnone : c.key = none := by
          rcases hkey with h | h
          · exact h
          · exact h.2
        refine ⟨?_, by omega, ?_⟩
        · rw [parseItems]
          simp only [hqc, hq2]
        · rw [listIds_cons, idsOf_eq_ownIds c hcnone]
          exact OwnBounds.append hb hb2 (by omega) (by omega)

/-- The ids contributed by a resolved map key: nothing for an unwrapped
primitive, the key node's own ids otherwise. -/
theorem keyIds_getKey (k : ParsedNode) (hk : k.key = none) :
    keyIds (some (getKey k)) = [] ∨ keyIds (some (getKey k)) = ownIds k := by
  unfold getKey
  split
  · left; simp
  · right; simp [idsOf_eq_ownIds k hk]

/-- The map-entry loop preserves the invariant: per entry the key node is
parsed first, then the value node with the resolved key, and only the
value node is retained. -/
theorem parseEntries_main
    (p q : Nat → Nat → Option KeyV → Except Err (ParsedNode × Nat × Nat))
    (hp : StepOk p q) :
    ∀ (n off nid : Nat) (cs : List ParsedNode) (o' n' : Nat),
      parseEntries p n off nid = .ok (cs, o', n') →
      parseEntries q n off nid = .ok (cs, o', n') ∧ nid ≤ n' ∧ OwnBounds nid n' (listIds cs) := by
  intro n
  induction n with
  | zero =>
    intro off nid cs o' n' h
    simp only [parseEntries, Except.ok.injEq, Prod.mk.injEq] at h
    obtain ⟨h1, h2, h3⟩ := h
    subst h1; subst h2; subst h3
    exact ⟨rfl, Nat.le_refl _, by rw [listIds_nil]; exact OwnBounds.nil _ _⟩
  | succ n ih =>
    intro off nid cs o' n' h
    rw [parseEntries] at h
    split at h
    · exact Except.noConfusion h
    · rename_i k off1 nid1 hparsek
      split at h
      · exact Except.noConfusion h
      · rename_i v off2 nid2 hparsev
        split at h
        · exact Except.noConfusion h
        · rename_i vs off3 nid3 hrec
          simp only [Except.ok.injEq, Prod.mk.injEq] at h
          obtain ⟨h1, h2, h3⟩ := h
          subst h1; subst h2; subst h3
          obtain ⟨hqk, hklt, hkb, hkkey⟩ := hp _ _ _ _ _ _ hparsek
          obtain ⟨hqv, hvlt, hvb, hvkey⟩ := hp _ _ _ _ _ _ hparsev
          obtain ⟨hq2, hle2, hb2⟩ := ih _ _ _ _ _ hrec
          have hknone : k.key = none := by
            rcases hkkey with h | h
            · exact h
            · exact h.2
          have hvids : OwnBounds nid nid2 (idsOf v) := by
            rw [idsOf_decomp]
            rcases hvkey with hv | hv
            · rw [hv]
              rcases keyIds_getKey k hknone with hkk | hkk
              · rw [hkk]
                simpa using OwnBounds.mono hvb (by omega) (by omega)
              · rw [hkk]
                exact OwnBounds.append hkb hvb (by omega) (by omega)
            · rw [hv.2, keyIds_none, List.nil_append]
              exact OwnBounds.mono hvb (by omega) (by omega)
          refine ⟨?_, by omega, ?_⟩
          · rw [parseEntries]
            simp only [hqk, hqv, hq2]
          · rw [listIds_cons]
            exact OwnBounds.append hvids hb2 (by omega) (by omega)

theorem parseDispatch_main
    (p q : Nat → Nat → Option KeyV → Except Err (ParsedNode × Nat × Nat)) (hp : StepOk p q)
    (buf extra : List Nat) (byte off0 nid0 : Nat) (key : Option KeyV)
    (node : ParsedNode) (o' n' : Nat)
    (h : parseDispatch p buf byte off0 nid0 key = .ok (node, o', n')) :
    parseDispatch q (buf ++ extra) byte off0 nid0 key = .ok (node, o', n') ∧
    nid0 < n' ∧ OwnBounds nid0 n' (ownIds node) ∧
    (node.key = key ∨ (node.type = .EXTENSION ∧ node.key = none)) := by
  unfold parseDispatch at h ⊢
  simp only [] at h ⊢
  split at h
  all_goals try exact Except.noConfusion h
  case h_1 =>
    simp only [Except.ok.injEq, Prod.mk.injEq] at h
    obtain ⟨h1, h2, h3⟩ := h
    subst h1; subst h2; subst h3
    refine ⟨rfl, by omega, ?_, Or.inl rfl⟩
    rw [ownIds_mk_none]
    exact OwnBounds.single _ _ _ (Nat.le_refl _) (by omega)
  case h_2 =>
    simp only [Except.ok.injEq, Prod.mk.injEq] at h
    obtain ⟨h1, h2, h3⟩ := h
    subst h1; subst h2; subst h3
    refine ⟨rfl, by omega, ?_, Or.inl rfl⟩
    rw [ownIds_mk_none]
    exact OwnBounds.single _ _ _ (Nat.le_refl _) (by omega)
  case h_3 =>
    split at h
    · exact Except.noConfusion h
    · rename_i cs offE nidE hents
      simp only [Except.ok.injEq, Prod.mk.injEq] at h
      obtain ⟨h1, h2, h3⟩ := h
      subst h1; subst h2; subst h3
      obtain ⟨hq2, hle2, hb2⟩ := parseEntries_main p q hp _ _ _ _ _ _ hents
      refine ⟨by simp only [hq2], by omega, ?_, Or.inl rfl⟩
      rw [ownIds_mk_some]
      exact OwnBounds.cons_head hb2 (Nat.le_refl _) (by omega)
  case h_4 =>
    split at h
    · exact Except.noConfusion h
    · rename_i cs offE nidE hents
      simp only [Except.ok.injEq, Prod.mk.injEq] at h
      obtain ⟨h1, h2, h3⟩ := h
      subst h1; subst h2; subst h3
      obtain ⟨hq2, hle2, hb2⟩ := parseItems_main p q hp _ _ _ _ _ _ hents
      refine ⟨by simp only [hq2], by omega, ?_, Or.inl rfl⟩
      rw [ownIds_mk_some]
      exact OwnBounds.cons_head hb2 (Nat.le_refl _) (by omega)
  case h_5 =>
    split at h
    · exact Except.noConfusion h
    · rename_i s offE hstr
      simp only [Except.ok.injEq, Prod.mk.injEq] at h
      obtain ⟨h1, h2, h3⟩ := h
      subst h1; subst h2; subst h3
      refine ⟨by simp only [readStringP_append buf extra _ _ _ _ hstr], by omega, ?_, Or.inl rfl⟩
      rw [ownIds_mk_none]
      exact OwnBounds.single _ _ _ (Nat.le_refl _) (by omega)
  case h_6 =>
    simp only [Except.ok.injEq, Prod.mk.injEq] at h
    obtain ⟨h1, h2, h3⟩ := h
    subst h1; subst h2; subst h3
    refine ⟨rfl, by omega, ?_, Or.inl rfl⟩
    rw [ownIds_mk_none]
    exact OwnBounds.single _ _ _ (Nat.le_refl _) (by omega)
  case h_7 =>
    simp only [Except.ok.injEq, Prod.mk.injEq] at h
    obtain ⟨h1, h2, h3⟩ := h
    subst h1; subst h2; subst h3
    refine ⟨rfl, by omega, ?_, Or.inl rfl⟩
    rw [ownIds_mk_none]
    exact OwnBounds.single _ _ _ (Nat.le_refl _) (by omega)
  case h_8 =>
    simp only [Except.ok.injEq, Prod.mk.injEq] at h
    obtain ⟨h1, h2, h3⟩ := h
    subst h1; subst h2; subst h3
    refine ⟨rfl, by omega, ?_, Or.inl rfl⟩
    rw [ownIds_mk_none]
    exact OwnBounds.single _ _ _ (Nat.le_refl _) (by omega)
  case h_9 =>
    split at h
    · exact Except.noConfusion h
    · rename_i len hlen
      split at h
      · exact Except.noConfusion h
      · rename_i data offE hbin
        simp only [Except.ok.injEq, Prod.mk.injEq] at h
        obtain ⟨h1, h2, h3⟩ := h
        subst h1; subst h2; subst h3
        refine ⟨by simp only [readUintBE_append buf extra _ _ _ hlen,
                              readBinP_append buf extra _ _ _ _ hbin], by omega, ?_, Or.inl rfl⟩
        rw [ownIds_mk_none]
        exact OwnBounds.single _ _ _ (Nat.le_refl _) (by omega)
  case h_10 =>
    split at h
    · exact Except.noConfusion h
    · rename_i len hlen
      split at h
      · exact Except.noConfusion h
      · rename_i data offE hbin
        simp only [Except.ok.injEq, Prod.mk.injEq] at h
        obtain ⟨h1, h2, h3⟩ := h
        subst h1; subst h2; subst h3
        refine ⟨by simp only [readUintBE_append buf extra _ _ _ hlen,
                              readBinP_append buf extra _ _ _ _ hbin], by omega, ?_, Or.inl rfl⟩
        rw [ownIds_mk_none]
        exact OwnBounds.single _ _ _ (Nat.le_refl _) (by omega)
  case h_11 =>
    split at h
    · exact Except.noConfusion h
    · rename_i len hlen
      split at h
      · exact Except.noConfusion h
      · rename_i data offE hbin
        simp only [Except.ok.injEq, Prod.mk.injEq] at h
        obtain ⟨h1, h2, h3⟩ := h
        subst h1; subst h2; subst h3
        refine ⟨by simp only [readUintBE_append buf extra _ _ _ hlen,
                              readBinP_append buf extra _ _ _ _ hbin], by omega, ?_, Or.inl rfl⟩
        rw [ownIds_mk_none]
        exact OwnBounds.single _ _ _ (Nat.le_refl _) (by omega)
  case h_12 =>
    split at h
    · exact Except.noConfusion h
    · rename_i v hv
      simp only [Except.ok.injEq, Prod.mk.injEq] at h
      obtain ⟨h1, h2, h3⟩ := h
      subst h1; subst h2; subst h3
      refine ⟨by simp only [readUintBE_append buf extra _ _ _ hv], by omega, ?_, Or.inl rfl⟩
      rw [ownIds_mk_none]
      exact OwnBounds.single _ _ _ (Nat.le_refl _) (by omega)
  case h_13 =>
    split at h
    · exact Except.noConfusion h
    · rename_i v hv
      simp only [Except.ok.injEq, Prod.mk.injEq] at h
      obtain ⟨h1, h2, h3⟩ := h
      subst h1; subst h2; subst h3
      refine ⟨by simp only [readUintBE_append buf extra _ _ _ hv], by omega, ?_, Or.inl rfl⟩
      rw [ownIds_mk_none]
      exact OwnBounds.single _ _ _ (Nat.le_refl _) (by omega)
  case h_14 =>
    split at h
    · exact Except.noConfusion h
    · rename_i v hv
      simp only [Except.ok.injEq, Prod.mk.injEq] at h
      obtain ⟨h1, h2, h3⟩ := h
      subst h1; subst h2; subst h3
      refine ⟨by simp only [readUintBE_append buf extra _ _ _ hv], by omega, ?_, Or.inl rfl⟩
      rw [ownIds_mk_none]
      exact OwnBounds.single _ _ _ (Nat.le_refl _) (by omega)
  case h_15 =>
    split at h
    · exact Except.noConfusion h
    · rename_i v hv
      simp only [Except.ok.injEq, Prod.mk.injEq] at h
      obtain ⟨h1, h2, h3⟩ := h
      subst h1; subst h2; subst h3
      refine ⟨by simp only [readUintBE_append buf extra _ _ _ hv], by omega, ?_, Or.inl rfl⟩
      rw [ownIds_mk_none]
      exact OwnBounds.single _ _ _ (Nat.le_refl _) (by omega)
  case h_16 =>
    split at h
    · exact Except.noConfusion h
    · rename_i v hv
      simp only [Except.ok.injEq, Prod.mk.injEq] at h
      obtain ⟨h1, h2, h3⟩ := h
      subst h1; subst h2; subst h3
      refine ⟨by simp only [readUintBE_append buf extra _ _ _ hv], by omega, ?_, Or.inl rfl⟩
      rw [ownIds_mk_none]
      exact OwnBounds.single _ _ _ (Nat.le_refl _) (by omega)
  case h_17 =>
    split at h
    · exact Except.noConfusion h
    · rename_i v hv
      simp only [Except.ok.injEq, Prod.mk.injEq] at h
      obtain ⟨h1, h2, h3⟩ := h
      subst h1; subst h2; subst h3
      refine ⟨by simp only [readUintBE_append buf extra _ _ _ hv], by omega, ?_, Or.inl rfl⟩
      rw [ownIds_mk_none]
      exact OwnBounds.single _ _ _ (Nat.le_refl _) (by omega)
  case h_18 =>
    split at h
    · exact Except.noConfusion h
    · rename_i v hv
      simp only [Except.ok.injEq, Prod.mk.injEq] at h
      obtain ⟨h1, h2, h3⟩ := h
      subst h1; subst h2; subst h3
      refine ⟨by simp only [readUintBE_append buf extra _ _ _ hv], by omega, ?_, Or.inl rfl⟩
      rw [ownIds_mk_none]
      exact OwnBounds.single _ _ _ (Nat.le_refl _) (by omega)
  case h_19 =>
    split at h
    · exact Except.noConfusion h
    · rename_i v hv
      simp only [Except.ok.injEq, Prod.mk.injEq] at h
      obtain ⟨h1, h2, h3⟩ := h
      subst h1; subst h2; subst h3
      refine ⟨by simp only [readUintBE_append buf extra _ _ _ hv], by omega, ?_, Or.inl rfl⟩
      rw [ownIds_mk_none]
      exact OwnBounds.single _ _ _ (Nat.le_refl _) (by omega)
  case h_20 =>
    split at h
    · exact Except.noConfusion h
    · rename_i v hv
      simp only [Except.ok.injEq, Prod.mk.injEq] at h
      obtain ⟨h1, h2, h3⟩ := h
      subst h1; subst h2; subst h3
      refine ⟨by simp only [readUintBE_append buf extra _ _ _ hv], by omega, ?_, Or.inl rfl⟩
      rw [ownIds_mk_none]
      exact OwnBounds.single _ _ _ (Nat.le_refl _) (by omega)
  case h_21 =>
    split at h
    · exact Except.noConfusion h
    · rename_i v hv
      simp only [Except.ok.injEq, Prod.mk.injEq] at h
      obtain ⟨h1, h2, h3⟩ := h
      subst h1; subst h2; subst h3
      refine ⟨by simp only [readUintBE_append buf extra _ _ _ hv], by omega, ?_, Or.inl rfl⟩
      rw [ownIds_mk_none]
      exact OwnBounds.single _ _ _ (Nat.le_refl _) (by omega)
  case h_22 =>
    obtain ⟨hn', hkey, hty, hid, hown⟩ := readExt_shape _ _ _ _ _ _ _ _ h
    refine ⟨readExt_append buf extra _ _ _ _ _ h, by omega, ?_, Or.inr ⟨hty, hkey⟩⟩
    rw [hown]
    exact OwnBounds.single _ _ _ (by omega) (by omega)
  case h_23 =>
    obtain ⟨hn', hkey, hty, hid, hown⟩ := readExt_shape _ _ _ _ _ _ _ _ h
    refine ⟨readExt_append buf extra _ _ _ _ _ h, by omega, ?_, Or.inr ⟨hty, hkey⟩⟩
    rw [hown]
    exact OwnBounds.single _ _ _ (by omega) (by omega)
  case h_24 =>
    obtain ⟨hn', hkey, hty, hid, hown⟩ := readExt_shape _ _ _ _ _ _ _ _ h
    refine ⟨readExt_append buf extra _ _ _ _ _ h, by omega, ?_, Or.inr ⟨hty, hkey⟩⟩
    rw [hown]
    exact OwnBounds.single _ _ _ (by omega) (by omega)
  case h_25 =>
    obtain ⟨hn', hkey, hty, hid, hown⟩ := readExt_shape _ _ _ _ _ _ _ _ h
    refine ⟨readExt_append buf extra _ _ _ _ _ h, by omega, ?_, Or.inr ⟨hty, hkey⟩⟩
    rw [hown]
    exact OwnBounds.single _ _ _ (by omega) (by omega)
  case h_26 =>
    obtain ⟨hn', hkey, hty, hid, hown⟩ := readExt_shape _ _ _ _ _ _ _ _ h
    refine ⟨readExt_append buf extra _ _ _ _ _ h, by omega, ?_, Or.inr ⟨hty, hkey⟩⟩
    rw [hown]
    exact OwnBounds.single _ _ _ (by omega) (by omega)
  case h_27 =>
    split at h
    · exact Except.noConfusion h
    · rename_i len hlen
      obtain ⟨hn', hkey, hty, hid, hown⟩ := readExt_shape _ _ _ _ _ _ _ _ h
      refine ⟨?_, by omega, ?_, Or.inr ⟨hty, hkey⟩⟩
      · simp only [readUintBE_append buf extra _ _ _ hlen]
        exact readExt_append buf extra _ _ _ _ _ h
      · rw [hown]
        exact OwnBounds.single _ _ _ (by omega) (by omega)
  case h_28 =>
    split at h
    · exact Except.noConfusion h
    · rename_i len hlen
      obtain ⟨hn', hkey, hty, hid, hown⟩ := readExt_shape _ _ _ _ _ _ _ _ h
      refine ⟨?_, by omega, ?_, Or.inr ⟨hty, hkey⟩⟩
      · simp only [readUintBE_append buf extra _ _ _ hlen]
        exact readExt_append buf extra _ _ _ _ _ h
      · rw [hown]
        exact OwnBounds.single _ _ _ (by omega) (by omega)
  case h_29 =>
    split at h
    · exact Except.noConfusion h
    · rename_i len hlen
      obtain ⟨hn', hkey, hty, hid, hown⟩ := readExt_shape _ _ _ _ _ _ _ _ h
      refine ⟨?_, by omega, ?_, Or.inr ⟨hty, hkey⟩⟩
      · simp only [readUintBE_append buf extra _ _ _ hlen]
        exact readExt_append buf extra _ _ _ _ _ h
      · rw [hown]
        exact OwnBounds.single _ _ _ (by omega) (by omega)
  case h_30 =>
    split at h
    · exact Except.noConfusion h
    · rename_i len hlen
      split at h
      · exact Except.noConfusion h
      · rename_i s offE hstr
        simp only [Except.ok.injEq, Prod.mk.injEq] at h
        obtain ⟨h1, h2, h3⟩ := h
        subst h1; subst h2; subst h3
        refine ⟨by simp only [readUintBE_append buf extra _ _ _ hlen,
                              readStringP_append buf extra _ _ _ _ hstr], by omega, ?_, Or.inl rfl⟩
        rw [ownIds_mk_none]
        exact OwnBounds.single _ _ _ (Nat.le_refl _) (by omega)
  case h_31 =>
    split at h
    · exact Except.noConfusion h
    · rename_i len hlen
      split at h
      · exact Except.noConfusion h
      · rename_i s offE hstr
        simp only [Except.ok.injEq, Prod.mk.injEq] at h
        obtain ⟨h1, h2, h3⟩ := h
        subst h1; subst h2; subst h3
        refine ⟨by simp only [readUintBE_append buf extra _ _ _ hlen,
                              readStringP_append buf extra _ _ _ _ hstr], by omega, ?_, Or.inl rfl⟩
        rw [ownIds_mk_none]
        exact OwnBounds.single _ _ _ (Nat.le_refl _) (by omega)
  case h_32 =>
    split at h
    · exact Except.noConfusion h
    · rename_i len hlen
      split at h
      · exact Except.noConfusion h
      · rename_i s offE hstr
        simp only [Except.ok.injEq, Prod.mk.injEq] at h
        obtain ⟨h1, h2, h3⟩ := h
        subst h1; subst h2; subst h3
        refine ⟨by simp only [readUintBE_append buf extra _ _ _ hlen,
                              readStringP_append buf extra _ _ _ _ hstr], by omega, ?_, Or.inl rfl⟩
        rw [ownIds_mk_none]
        exact OwnBounds.single _ _ _ (Nat.le_refl _) (by omega)
  case h_33 =>
    split at h
    · exact Except.noConfusion h
    · rename_i len hlen
      split at h
      · exact Except.noConfusion h
      · rename_i cs offE nidE hents
        simp only [Except.ok.injEq, Prod.mk.injEq] at h
        obtain ⟨h1, h2, h3⟩ := h
        subst h1; subst h2; subst h3
        obtain ⟨hq2, hle2, hb2⟩ := parseItems_main p q hp _ _ _ _ _ _ hents
        refine ⟨by simp only [readUintBE_append buf extra _ _ _ hlen, hq2], by omega, ?_, Or.inl rfl⟩
        rw [ownIds_mk_some]
        exact OwnBounds.cons_head hb2 (Nat.le_refl _) (by omega)
  case h_34 =>
    split at h
    · exact Except.noConfusion h
    · rename_i len hlen
      split at h
      · exact Except.noConfusion h
      · rename_i cs offE nidE hents
        simp only [Except.ok.injEq, Prod.mk.injEq] at h
        obtain ⟨h1, h2, h3⟩ := h
        subst h1; subst h2; subst h3
        obtain ⟨hq2, hle2, hb2⟩ := parseItems_main p q hp _ _ _ _ _ _ hents
        refine ⟨by simp only [readUintBE_append buf extra _ _ _ hlen, hq2], by omega, ?_, Or.inl rfl⟩
        rw [ownIds_mk_some]
        exact OwnBounds.cons_head hb2 (Nat.le_refl _) (by omega)
  case h_35 =>
    split at h
    · exact Except.noConfusion h
    · rename_i len hlen
      split at h
      · exact Except.noConfusion h
      · rename_i cs offE nidE hents
        simp only [Except.ok.injEq, Prod.mk.injEq] at h
        obtain ⟨h1, h2, h3⟩ := h
        subst h1; subst h2; subst h3
        obtain ⟨hq2, hle2, hb2⟩ := parseEntries_main p q hp _ _ _ _ _ _ hents
        refine ⟨by simp only [readUintBE_append buf extra _ _ _ hlen, hq2], by omega, ?_, Or.inl rfl⟩
        rw [ownIds_mk_some]
        exact OwnBounds.cons_head hb2 (Nat.le_refl _) (by omega)
  case h_36 =>
    split at h
    · exact Except.noConfusion h
    · rename_i len hlen
      split at h
      · exact Except.noConfusion h
      · rename_i cs offE nidE hents
        simp only [Except.ok.injEq, Prod.mk.injEq] at h
        obtain ⟨h1, h2, h3⟩ := h
        subst h1; subst h2; subst h3
        obtain ⟨hq2, hle2, hb2⟩ := parseEntries_main p q hp _ _ _ _ _ _ hents
        refine ⟨by simp only [readUintBE_append buf extra _ _ _ hlen, hq2], by omega, ?_, Or.inl rfl⟩
        rw [ownIds_mk_some]
        exact OwnBounds.cons_head hb2 (Nat.le_refl _) (by omega)

/-- The main parse invariant: a successful parse transfers unchanged to
any extension of the buffer at any fuel at least as large, strictly
advances the id counter, keeps its own ids increasing within the
consumed counter interval, and attaches the passed key to the node
except in the extension branches, which build the node without it. -/
theorem parseFuel_main (fuel : Nat) :
    ∀ (buf extra : List Nat) (fuel' : Nat), fuel ≤ fuel' →
      StepOk (parseFuel fuel buf) (parseFuel fuel' (buf ++ extra)) := by
  induction fuel with
  | zero =>
    intro buf extra fuel' hle off nid key node o' n' h
    simp [parseFuel] at h
  | succ fuel ih =>
    intro buf extra fuel' hle off nid key node o' n' h
    obtain ⟨f', rfl⟩ : ∃ f', fuel' = f' + 1 := ⟨fuel' - 1, by omega⟩
    rw [parseFuel] at h
    split at h
    · exact Except.noConfusion h
    · rename_i hoff
      have hb : (buf ++ extra).getD off 0 = buf.getD off 0 :=
        List.getD_append buf extra 0 off (by omega)
      have hdisp := parseDispatch_main (parseFuel fuel buf) (parseFuel f' (buf ++ extra))
        (ih buf extra f' (by omega)) buf extra (buf.getD off 0) off nid key node o' n' h
      refine ⟨?_, hdisp.2⟩
      rw [parseFuel]
      rw [if_neg (by simp only [List.length_append]; omega), hb]
      exact hdisp.1

/-- The non-framing conjuncts of the main invariant, stated for the
parser on its own buffer. -/
theorem parseFuel_own (fuel : Nat) (buf : List Nat) (off nid : Nat) (key : Option KeyV)
    (node : ParsedNode) (o' n' : Nat) (h : parseFuel fuel buf off nid key = .ok (node, o', n')) :
    nid < n' ∧ OwnBounds nid n' (ownIds node) ∧
    (node.key = key ∨ (node.type = .EXTENSION ∧ node.key = none)) :=
  (parseFuel_main fuel buf [] fuel (Nat.le_refl _) off nid key node o' n' h).2

/-- `MsgpackParser.getKey` is exactly the specification's unwrap rule. -/
theorem getKey_eq_getKeySpec : ∀ k : ParsedNode, getKey k = getKeySpec k := by
  intro k
  cases k with
  | mk i key ty v raw ch bl me => cases ty <;> rfl

/-- The entry loop succeeds exactly as the specification's description of
map-entry decoding prescribes. -/
theorem parseEntries_iff (p : Nat → Nat → Option KeyV → Except Err (ParsedNode × Nat × Nat)) :
    ∀ (n off nid : Nat) (cs : List ParsedNode) (o' i' : Nat),
      parseEntries p n off nid = .ok (cs, o', i') ↔ EntriesSpec p n off nid cs o' i' := by
  intro n
  induction n with
  | zero =>
    intro off nid cs o' i'
    constructor
    · intro h
      simp only [parseEntries, Except.ok.injEq, Prod.mk.injEq] at h
      obtain ⟨h1, h2, h3⟩ := h
      subst h1; subst h2; subst h3
      exact EntriesSpec.nil off nid
    · intro h
      cases h
      rfl
  | succ n ih =>
    intro off nid cs o' i'
    constructor
    · intro h
      rw [parseEntries] at h
      split at h
      · exact Except.noConfusion h
      · rename_i k o1 i1 hk
        split at h
        · exact Except.noConfusion h
        · rename_i v o2 i2 hv
          split at h
          · exact Except.noConfusion h
          · rename_i vs o3 i3 hrec
            simp only [Except.ok.injEq, Prod.mk.injEq] at h
            obtain ⟨h1, h2, h3⟩ := h
            subst h1; subst h2; subst h3
            exact EntriesSpec.cons n off nid k v o1 i1 o2 i2 _ _ vs hk
              (by rw [← getKey_eq_getKeySpec]; exact hv) ((ih _ _ _ _ _).mp hrec)
    · intro h
      cases h with
      | cons _ _ _ k v o1 i1 o2 i2 _ _ vs hk hv hrec =>
        have hv2 : p o1 i1 (some (getKey k)) = .ok (v, o2, i2) := by
          rw [getKey_eq_getKeySpec]
          exact hv
        have hr2 := (ih o2 i2 vs o' i').mpr hrec
        rw [parseEntries]
        simp only [hk, hv2, hr2]

/-! ## Claim C1 (map-entry key handling) -/

/-- C1 counterexample: the claim says the resolved key is always
attached as the value node's associatedKey, but when the map value is an
extension the node is rebuilt inside readExt without the key: decoding
the map whose single entry has string key "key" and fixext1 value yields
a child with no associatedKey at all. -/
theorem C1_counterexample :
    parseTop [0x81, 0xa3, 107, 101, 121, 0xd4, 1, 42] =
      .ok (.mk 0 none .MAP .null "map(1)"
            (some [.mk 3 none .EXTENSION (.bin [42]) "fixext1" none (some 1) (some 1)])
            (some 1) none, 8, 4) ∧
    (ParsedNode.mk 3 none .EXTENSION (.bin [42]) "fixext1" none (some 1)
        (some 1) : ParsedNode).key = none :=
  ⟨rfl, rfl⟩

/-- C1 (amended): for every map entry the key node is decoded first with
no associated key; the resolved key follows exactly the primitive-unwrap
rule (Null, Boolean, Integer, Float, String unwrap to their raw value,
anything else keeps the whole node); the value node is decoded with the
resolved key and only the value node is appended to children; the value
node records the passed key as associatedKey except when it is an
Extension node, which is built without one.  The concrete
fixmap/fixstr example of the claim holds as stated. -/
theorem C1_map_key_amended :
    (∀ k : ParsedNode, getKey k = getKeySpec k) ∧
    (∀ (p : Nat → Nat → Option KeyV → Except Err (ParsedNode × Nat × Nat))
       (n off nid : Nat) (cs : List ParsedNode) (o' i' : Nat),
        parseEntries p n off nid = .ok (cs, o', i') ↔ EntriesSpec p n off nid cs o' i') ∧
    (∀ (fuel : Nat) (buf : List Nat) (off nid : Nat) (key : Option KeyV)
       (node : ParsedNode) (o' n' : Nat),
        parseFuel fuel buf off nid key = .ok (node, o', n') →
        node.key = key ∨ (node.type = .EXTENSION ∧ node.key = none)) ∧
    parseTop [0x81, 0xa3, 107, 101, 121, 0xa5, 118, 97, 108, 117, 101] =
      .ok (.mk 0 none .MAP .null "map(1)"
            (some [.mk 2 (some (.inl (.str "key"))) .STRING (.str "value") "str(5)" none
                     (some 5) none])
            (some 1) none, 11, 3) := by
  refine ⟨getKey_eq_getKeySpec, parseEntries_iff, ?_, rfl⟩
  intro fuel buf off nid key node o' n' h
  exact (parseFuel_own fuel buf off nid key node o' n' h).2.2

/-- C1 witness: the amended statements applied at concrete inputs. -/
theorem C1_map_key_amended_witness :
    getKey (.mk 1 none .STRING (.str "key") "str(3)" none (some 3) none) =
      .inl (.str "key") ∧
    EntriesSpec (parseFuel 11 [0x81, 0xa3, 107, 101, 121, 0xa5, 118, 97, 108, 117, 101])
      1 1 1
      [.mk 2 (some (.inl (.str "key"))) .STRING (.str "value") "str(5)" none (some 5) none]
      11 3 ∧
    ((ParsedNode.mk 0 none .NULL .null "nil" none none none : ParsedNode).key = none ∨
      (ParsedNode.mk 0 none .NULL .null "nil" none none none : ParsedNode).type = .EXTENSION ∧
      (ParsedNode.mk 0 none .NULL .null "nil" none none none : ParsedNode).key = none) := by
  have h := C1_map_key_amended
  refine ⟨(h.1 _).trans rfl, ?_, ?_⟩
  · exact (h.2.1 _ 1 1 1 _ 11 3).mp rfl
  · exact h.2.2.1 2 [0xc0] 0 0 none _ 1 1 rfl

/-! ## Claim C9 (node identities) -/

/-- C9 counterexample: identities are not process-unique across decode
invocations: `parseMsgpack` resets the id counter to 0 on entry, so two
distinct decodes both label their root node "node-0". -/
theorem C9_counterexample :
    rootId (parseMsgpack "c0" .HEX) = some 0 ∧
    rootId (parseMsgpack "c2" .HEX) = some 0 :=
  ⟨rfl, rfl⟩

/-- C9 (amended): within a single decode the identities are assigned by a
monotonically increasing counter in creation order: every id retained in
the resulting tree lies in the counter interval the parse consumed, and
the creation-order traversal of the tree is strictly increasing (hence
all identities in one tree are distinct).  Across decode invocations the
counter restarts at 0, so identities repeat. -/
theorem C9_ids_amended :
    ∀ (fuel : Nat) (buf : List Nat) (off nid : Nat) (node : ParsedNode) (o' n' : Nat),
      parseFuel fuel buf off nid none = .ok (node, o', n') →
      nid < n' ∧ (∀ j ∈ idsOf node, nid ≤ j ∧ j < n') ∧
      (idsOf node).Pairwise (· < ·) := by
  intro fuel buf off nid node o' n' h
  obtain ⟨hlt, hb, hkey⟩ := parseFuel_own fuel buf off nid none node o' n' h
  have hnone : node.key = none := by
    rcases hkey with h | h
    · exact h
    · exact h.2
  rw [idsOf_eq_ownIds node hnone]
  exact ⟨hlt, hb.1, hb.2⟩

/-- C9 witness: the id discipline at a concrete decode (the one-entry
map example: the retained ids are [0, 2], increasing and inside the
consumed interval [0, 3)). -/
theorem C9_ids_amended_witness :
    0 < 3 ∧
    (∀ j ∈ idsOf (ParsedNode.mk 0 none .MAP .null "map(1)"
        (some [.mk 2 (some (.inl (.str "key"))) .STRING (.str "value") "str(5)" none
                 (some 5) none])
        (some 1) none), 0 ≤ j ∧ j < 3) ∧
    (idsOf (ParsedNode.mk 0 none .MAP .null "map(1)"
        (some [.mk 2 (some (.inl (.str "key"))) .STRING (.str "value") "str(5)" none
                 (some 5) none])
        (some 1) none)).Pairwise (· < ·) :=
  C9_ids_amended 12 [0x81, 0xa3, 107, 101, 121, 0xa5, 118, 97, 108, 117, 101] 0 0 _ 11 3 rfl

/-! ## Claim C10 (trailing bytes ignored) -/

/-- C10: whenever the first encoded value decodes successfully, the
decode entry point succeeds and returns exactly that value as the root
tree, both on the buffer itself and on the buffer with any trailing
bytes appended: trailing data is never reported as an error and never
appears in (or influences) the result tree. -/
theorem C10_trailing_ignored :
    ∀ (bytes extra : List Nat) (node : ParsedNode) (off n' : Nat) (fmt : InputFormat),
      parseTop bytes = .ok (node, off, n') →
      decodeBytes bytes fmt = .success node fmt bytes ∧
      decodeBytes (bytes ++ extra) fmt = .success node fmt (bytes ++ extra) := by
  intro bytes extra node off n' fmt h
  have hne : bytes.length ≠ 0 := by
    intro h0
    rw [List.length_eq_zero.mp h0] at h
    exact Except.noConfusion (h.symm.trans rfl)
  have hframe : parseTop (bytes ++ extra) = .ok (node, off, n') := by
    unfold parseTop at h ⊢
    exact (parseFuel_main (bytes.length + 1) bytes extra ((bytes ++ extra).length + 1)
      (by simp [List.length_append]) 0 0 none node off n' h).1
  constructor
  · unfold decodeBytes
    rw [if_neg hne, h]
  · unfold decodeBytes
    rw [if_neg (by simp only [List.length_append]; omega), hframe]

/-- C10 witness: decoding nil with two junk bytes appended succeeds,
returning the same root node as decoding nil alone. -/
theorem C10_trailing_ignored_witness :
    decodeBytes [0xc0] .HEX =
      .success (.mk 0 none .NULL .null "nil" none none none) .HEX [0xc0] ∧
    decodeBytes [0xc0, 0x99, 0x77] .HEX =
      .success (.mk 0 none .NULL .null "nil" none none none) .HEX [0xc0, 0x99, 0x77] :=
  C10_trailing_ignored [0xc0] [0x99, 0x77] _ 1 1 .HEX rfl

end MV
